import Mathlib

/-!
Shallow embedding of the note ingestion / field-normalization pipeline of the
`anki_mcp` server (files `anki_mcp/services/notes.py`, `anki_mcp/services/media.py`,
`anki_mcp/schemas/notes.py`, `anki_mcp/tools/notes.py`), together with theorems
settling the specification claims about it.

Python dictionaries are modelled as association lists in insertion order with
distinct keys (`pyDictSet` updates in place, preserving the position of an
existing key, exactly like CPython dict assignment).  Python strings are Lean
`String`s; `str.lower()` is modelled by `Char.toLower` (accurate on ASCII, which
is all the code's fixed alphabets use).  Machine integers are `Int`/`Nat`.
Remote I/O (`AnkiConnect` JSON-RPC calls) is modelled by oracle functions in a
`Ctx` structure; every call issued is recorded in an explicit trace.
-/

namespace AnkiMcp

/-- The double-quote character. -/
def dquo : Char := Char.ofNat 34

/-- The single-quote character. -/
def squo : Char := Char.ofNat 39

/-- Python `str.lower()` (modelled by per-character `Char.toLower`). -/
def lowerStr (s : String) : String := String.mk (s.data.map Char.toLower)

/-- Characters that Python `str.strip()` removes (the ASCII whitespace set). -/
def pyIsSpace (c : Char) : Bool :=
  c = ' ' ∨ c = '\t' ∨ c = '\n' ∨ c = '\r' ∨ c = Char.ofNat 11 ∨ c = Char.ofNat 12

/-- Python `str.strip()`. -/
def pyStrip (s : String) : String :=
  String.mk (((s.data.dropWhile pyIsSpace).reverse.dropWhile pyIsSpace).reverse)

/-- Python `str.rstrip()`. -/
def pyRstrip (s : String) : String :=
  String.mk ((s.data.reverse.dropWhile pyIsSpace).reverse)

/-- Python `repr` of a simple string: single quotes, or double quotes when the
string contains a single quote but no double quote.  (Escaping of quotes and
control characters inside the string is not modelled; the claims only apply it
to plain field names.) -/
def pyRepr (s : String) : String :=
  if s.data.contains squo ∧ ¬ s.data.contains dquo
  then String.singleton dquo ++ s ++ String.singleton dquo
  else String.singleton squo ++ s ++ String.singleton squo

/-- Lexicographic comparison of character lists by code point (the order
Python uses to compare strings). -/
def charListLe : List Char → List Char → Bool
  | [], _ => true
  | _ :: _, [] => false
  | a :: as, b :: bs =>
      if a.toNat < b.toNat then true
      else if b.toNat < a.toNat then false
      else charListLe as bs

/-- Python string `<=`. -/
def pyStrLe (a b : String) : Bool := charListLe a.data b.data

theorem charListLe_trans : ∀ (x y z : List Char),
    charListLe x y = true → charListLe y z = true → charListLe x z = true := by
  intro x
  induction x with
  | nil => intro y z _ _; rfl
  | cons a as ih =>
      intro y z hxy hyz
      cases y with
      | nil => simp [charListLe] at hxy
      | cons b bs =>
          cases z with
          | nil => simp [charListLe] at hyz
          | cons c cs =>
              simp only [charListLe] at hxy hyz ⊢
              by_cases hab : a.toNat < b.toNat
              · by_cases hbc : b.toNat < c.toNat
                · simp [show a.toNat < c.toNat by omega]
                · rw [if_pos hab] at hxy
                  rw [if_neg hbc] at hyz
                  by_cases hcb : c.toNat < b.toNat
                  · simp [hcb] at hyz
                  · simp [show a.toNat < c.toNat by omega]
              · rw [if_neg hab] at hxy
                by_cases hba : b.toNat < a.toNat
                · simp [hba] at hxy
                · rw [if_neg hba] at hxy
                  by_cases hbc : b.toNat < c.toNat
                  · simp [show a.toNat < c.toNat by omega]
                  · rw [if_neg hbc] at hyz
                    by_cases hcb : c.toNat < b.toNat
                    · simp [hcb] at hyz
                    · rw [if_neg hcb] at hyz
                      rw [if_neg (show ¬ a.toNat < c.toNat by omega),
                        if_neg (show ¬ c.toNat < a.toNat by omega)]
                      exact ih bs cs hxy hyz

theorem charListLe_total : ∀ (x y : List Char),
    (charListLe x y || charListLe y x) = true := by
  intro x
  induction x with
  | nil => intro y; simp [charListLe]
  | cons a as ih =>
      intro y
      cases y with
      | nil => simp [charListLe]
      | cons b bs =>
          simp only [charListLe]
          by_cases hab : a.toNat < b.toNat
          · simp [hab]
          · by_cases hba : b.toNat < a.toNat
            · simp [hab, hba]
            · simpa [hab, hba] using ih bs

/-- Insert a string into a sorted list, keeping existing equal-or-smaller
elements first (stable insertion). -/
def pyInsert (x : String) : List String → List String
  | [] => [x]
  | y :: ys => if pyStrLe x y then x :: y :: ys else y :: pyInsert x ys

/-- Python `sorted` on strings: a stable sort by code-point order.  (Modelled
as stable insertion sort; since code-point order is antisymmetric this agrees
elementwise with any stable sort, in particular CPython's timsort.) -/
def pySort : List String → List String
  | [] => []
  | x :: xs => pyInsert x (pySort xs)

theorem mem_pyInsert (x a : String) (l : List String) :
    a ∈ pyInsert x l ↔ a = x ∨ a ∈ l := by
  induction l with
  | nil => simp [pyInsert]
  | cons y ys ih =>
      by_cases hle : pyStrLe x y
      · simp [pyInsert, hle]
      · simp only [pyInsert, if_neg hle, List.mem_cons, ih]
        tauto

theorem pairwise_pyInsert (x : String) (l : List String)
    (h : l.Pairwise (fun a b => pyStrLe a b = true)) :
    (pyInsert x l).Pairwise (fun a b => pyStrLe a b = true) := by
  induction l with
  | nil => simp [pyInsert]
  | cons y ys ih =>
      rcases List.pairwise_cons.mp h with ⟨hy, hys⟩
      by_cases hle : pyStrLe x y
      · rw [pyInsert, if_pos hle]
        refine List.pairwise_cons.mpr ⟨?_, h⟩
        intro z hz
        rcases List.mem_cons.mp hz with rfl | hz2
        · exact hle
        · exact charListLe_trans _ _ _ hle (hy z hz2)
      · rw [pyInsert, if_neg hle]
        refine List.pairwise_cons.mpr ⟨?_, ih hys⟩
        intro z hz
        rcases (mem_pyInsert x z ys).mp hz with hzx | hz2
        · rw [hzx]
          have htot := charListLe_total x.data y.data
          simp only [pyStrLe] at hle ⊢
          rcases Bool.or_eq_true_iff.mp htot with h1 | h1
          · exact absurd h1 hle
          · exact h1
        · exact hy z hz2

theorem mem_pySort (l : List String) (a : String) : a ∈ pySort l ↔ a ∈ l := by
  induction l with
  | nil => simp [pySort]
  | cons x xs ih => simp [pySort, mem_pyInsert, ih]

theorem pairwise_pySort (l : List String) :
    (pySort l).Pairwise (fun a b => pyStrLe a b = true) := by
  induction l with
  | nil => simp [pySort]
  | cons x xs ih => exact pairwise_pyInsert x (pySort xs) ih

/-- CPython dict assignment `d[k] = v`: updates the value in place if the key
exists (keeping its position), otherwise appends the new binding. -/
def pyDictSet (d : List (String × String)) (k v : String) : List (String × String) :=
  match d with
  | [] => [(k, v)]
  | (k1, v1) :: rest =>
      if k1 = k then (k, v) :: rest else (k1, v1) :: pyDictSet rest k v

/-- Python `d.get(k, default)`. -/
def pyDictGetD (d : List (String × String)) (k dflt : String) : String :=
  match d.lookup k with
  | some v => v
  | none => dflt

/-- The dict comprehension for a case-insensitive alias map,
`{key.lower(): key for key in keys}` — on duplicate lowercase forms the last
key wins, as in CPython. -/
def lowerKeyMap (keys : List String) : List (String × String) :=
  keys.foldl (fun d k => pyDictSet d (lowerStr k) k) []

theorem lookup_pyDictSet (d : List (String × String)) (k v q : String) :
    (pyDictSet d k v).lookup q = if q = k then some v else d.lookup q := by
  induction d with
  | nil =>
      by_cases hq : q = k
      · simp [pyDictSet, List.lookup, hq]
      · simp [pyDictSet, List.lookup, hq, beq_false_of_ne hq]
  | cons hd tl ih =>
      obtain ⟨k1, v1⟩ := hd
      by_cases hk : k1 = k
      · subst hk
        simp only [pyDictSet, if_pos rfl]
        by_cases hq : q = k1
        · subst hq; simp [List.lookup]
        · simp [List.lookup, hq, beq_false_of_ne hq]
      · simp only [pyDictSet, if_neg hk]
        by_cases hq : q = k1
        · subst hq
          have : ¬ q = k := fun h => hk (by rw [h])
          simp [List.lookup, this]
        · simp [List.lookup, beq_false_of_ne hq, hq, ih]

theorem lookup_lowerKeyMap (keys : List String) (q : String) :
    (lowerKeyMap keys).lookup q =
      (keys.filter (fun k => lowerStr k = q)).getLast? := by
  suffices h : ∀ (d : List (String × String)),
      (keys.foldl (fun d k => pyDictSet d (lowerStr k) k) d).lookup q =
        ((keys.filter (fun k => lowerStr k = q)).getLast?).or (d.lookup q) by
    have := h []
    simpa [lowerKeyMap, List.lookup] using this
  induction keys with
  | nil => intro d; simp
  | cons k rest ih =>
      intro d
      simp only [List.foldl_cons, ih]
      by_cases hrest : (rest.filter (fun k => lowerStr k = q)).getLast? = none
      · have hnil : rest.filter (fun k => lowerStr k = q) = [] :=
          List.getLast?_eq_none_iff.mp hrest
        rw [hrest]
        by_cases hk : lowerStr k = q
        · simp [List.filter_cons, hk, hnil, lookup_pyDictSet, Option.or]
        · have hne : ¬ q = lowerStr k := fun h => hk h.symm
          simp [List.filter_cons, hk, hnil, lookup_pyDictSet, hne, Option.or]
      · obtain ⟨x, hx⟩ := Option.ne_none_iff_exists'.mp hrest
        rw [hx]
        have hcons : ((k :: rest).filter (fun k => lowerStr k = q)).getLast? = some x := by
          by_cases hk : lowerStr k = q
          · obtain ⟨y, t, hyt⟩ : ∃ y t, rest.filter (fun k => lowerStr k = q) = y :: t := by
              cases hfil : rest.filter (fun k => lowerStr k = q) with
              | nil => rw [hfil] at hx; simp at hx
              | cons y t => exact ⟨y, t, rfl⟩
            have hflt : (k :: rest).filter (fun k => lowerStr k = q) = k :: y :: t := by
              rw [List.filter_cons, hyt]; simp [hk]
            rw [hflt, List.getLast?_cons_cons, ← hyt, hx]
          · simp [List.filter_cons, hk, hx]
        rw [hcons]
        simp [Option.or]

/-- `normalize_fields_for_model` (anki_mcp/services/notes.py, lines 11-26):
maps arbitrary-cased user field names onto canonical model fields.  Returns
the canonical field dict, the matched count, and the sorted unknown keys. -/
def normalize_fields_for_model (user_fields : List (String × String))
    (model_fields : List String) :
    List (String × String) × Nat × List String :=
  let lower_map := lowerKeyMap (user_fields.map Prod.fst)
  let step := fun (acc : List (String × String) × List String) (f : String) =>
    match lower_map.lookup (lowerStr f) with
    | some k =>
        if k ≠ "" then
          (pyDictSet acc.1 f (pyDictGetD user_fields k ""), acc.2 ++ [k])
        else
          (pyDictSet acc.1 f "", acc.2)
    | none => (pyDictSet acc.1 f "", acc.2)
  let res := model_fields.foldl step ([], [])
  let normalized := res.1
  let matched_keys := res.2
  let unknown_fields :=
    (user_fields.map Prod.fst).filter (fun k => ¬ k ∈ matched_keys)
  (normalized, matched_keys.length, pySort unknown_fields)

/-- Declarative description of the user key that the canonicalizer selects for
a model field `f`: the last user key whose lowercase form equals `lowerStr f`,
provided that key is non-empty (Python truthiness of `lower_map.get(...)`). -/
def chosenKey (userKeys : List String) (f : String) : Option String :=
  match (userKeys.filter (fun k => lowerStr k = lowerStr f)).getLast? with
  | some k => if k = "" then none else some k
  | none => none

/-- The canonical value the canonicalizer assigns to a model field. -/
def fieldValue (user_fields : List (String × String)) (f : String) : String :=
  match chosenKey (user_fields.map Prod.fst) f with
  | some k => pyDictGetD user_fields k ""
  | none => ""

/-- Abbreviation for the loop step of `normalize_fields_for_model`. -/
def nffmStep (user_fields : List (String × String))
    (acc : List (String × String) × List String) (f : String) :
    List (String × String) × List String :=
  match (lowerKeyMap (user_fields.map Prod.fst)).lookup (lowerStr f) with
  | some k =>
      if k ≠ "" then
        (pyDictSet acc.1 f (pyDictGetD user_fields k ""), acc.2 ++ [k])
      else
        (pyDictSet acc.1 f "", acc.2)
  | none => (pyDictSet acc.1 f "", acc.2)

theorem normalize_fields_for_model_eq (uf : List (String × String))
    (mf : List String) :
    normalize_fields_for_model uf mf =
      (let res := mf.foldl (nffmStep uf) ([], []);
       (res.1, res.2.length,
        pySort ((uf.map Prod.fst).filter (fun k => ¬ k ∈ res.2)))) := rfl

theorem nffmStep_eq (uf : List (String × String))
    (acc : List (String × String) × List String) (f : String) :
    nffmStep uf acc f =
      (pyDictSet acc.1 f (fieldValue uf f),
       acc.2 ++ (chosenKey (uf.map Prod.fst) f).toList) := by
  unfold nffmStep fieldValue chosenKey
  rw [lookup_lowerKeyMap]
  cases hlast : ((uf.map Prod.fst).filter
      (fun k => lowerStr k = lowerStr f)).getLast? with
  | none => simp
  | some k =>
      by_cases hk : k = ""
      · simp [hk]
      · simp [hk]

theorem nffm_fold_snd (uf : List (String × String)) (mf : List String)
    (acc : List (String × String) × List String) :
    (mf.foldl (nffmStep uf) acc).2 =
      acc.2 ++ mf.filterMap (chosenKey (uf.map Prod.fst)) := by
  induction mf generalizing acc with
  | nil => simp
  | cons f rest ih =>
      rw [List.foldl_cons, ih, nffmStep_eq]
      cases h : chosenKey (uf.map Prod.fst) f with
      | none => simp [List.filterMap_cons, h]
      | some k => simp [List.filterMap_cons, h]

theorem nffm_fold_fst_lookup (uf : List (String × String)) (mf : List String)
    (acc : List (String × String) × List String) (q : String) :
    (mf.foldl (nffmStep uf) acc).1.lookup q =
      if q ∈ mf then some (fieldValue uf q) else acc.1.lookup q := by
  induction mf generalizing acc with
  | nil => simp
  | cons f rest ih =>
      rw [List.foldl_cons, ih]
      by_cases hrest : q ∈ rest
      · simp [hrest, List.mem_cons]
      · by_cases hf : q = f
        · subst hf
          simp [hrest, nffmStep_eq, lookup_pyDictSet]
        · simp [hrest, hf, nffmStep_eq, lookup_pyDictSet]

theorem mem_keys_pyDictSet (d : List (String × String)) (k v q : String) :
    q ∈ (pyDictSet d k v).map Prod.fst ↔ q = k ∨ q ∈ d.map Prod.fst := by
  induction d with
  | nil => simp [pyDictSet]
  | cons hd tl ih =>
      obtain ⟨k1, v1⟩ := hd
      by_cases hk : k1 = k
      · subst hk; simp [pyDictSet]
      · simp only [pyDictSet, if_neg hk, List.map_cons, List.mem_cons, ih]
        tauto

theorem nodup_keys_pyDictSet (d : List (String × String)) (k v : String)
    (h : (d.map Prod.fst).Nodup) : ((pyDictSet d k v).map Prod.fst).Nodup := by
  induction d with
  | nil => simp [pyDictSet]
  | cons hd tl ih =>
      obtain ⟨k1, v1⟩ := hd
      simp only [List.map_cons, List.nodup_cons] at h
      by_cases hk : k1 = k
      · subst hk
        simpa [pyDictSet, List.nodup_cons] using h
      · simp only [pyDictSet, if_neg hk, List.map_cons, List.nodup_cons]
        refine ⟨?_, ih h.2⟩
        rw [mem_keys_pyDictSet]
        rintro (rfl | hmem)
        · exact hk rfl
        · exact h.1 hmem

theorem nffm_fold_fst_keys (uf : List (String × String)) (mf : List String)
    (acc : List (String × String) × List String) (q : String) :
    (q ∈ (mf.foldl (nffmStep uf) acc).1.map Prod.fst ↔
      q ∈ mf ∨ q ∈ acc.1.map Prod.fst) := by
  induction mf generalizing acc with
  | nil => simp
  | cons f rest ih =>
      rw [List.foldl_cons, ih]
      simp only [nffmStep_eq, mem_keys_pyDictSet, List.mem_cons]
      tauto

theorem nffm_fold_fst_nodup (uf : List (String × String)) (mf : List String)
    (acc : List (String × String) × List String)
    (h : (acc.1.map Prod.fst).Nodup) :
    ((mf.foldl (nffmStep uf) acc).1.map Prod.fst).Nodup := by
  induction mf generalizing acc with
  | nil => simpa
  | cons f rest ih =>
      rw [List.foldl_cons]
      exact ih _ (by simpa [nffmStep_eq] using nodup_keys_pyDictSet _ f _ h)

/-- C1: for every user field map and every schema, the canonical field map
returned by `normalize_fields_for_model` has exactly the schema's fields as
its keys (no duplicates, no extras); a schema field with no case-insensitive
match among the user keys is mapped to `""`; and the returned `unknownKeys`
is the sorted list of those user keys that were matched to no schema field. -/
theorem C1_canonicalize_keys_exact (uf : List (String × String))
    (mf : List String) :
    ((normalize_fields_for_model uf mf).1.map Prod.fst).Nodup ∧
    (∀ q, q ∈ (normalize_fields_for_model uf mf).1.map Prod.fst ↔ q ∈ mf) ∧
    (∀ f ∈ mf, (∀ k ∈ uf.map Prod.fst, lowerStr k ≠ lowerStr f) →
      (normalize_fields_for_model uf mf).1.lookup f = some "") ∧
    (normalize_fields_for_model uf mf).2.2 =
      pySort ((uf.map Prod.fst).filter
        (fun k => ¬ ∃ f ∈ mf, chosenKey (uf.map Prod.fst) f = some k)) ∧
    (normalize_fields_for_model uf mf).2.2.Pairwise
      (fun a b => pyStrLe a b = true) := by
  rw [normalize_fields_for_model_eq]
  simp only []
  refine ⟨?_, ?_, ?_, ?_, ?_⟩
  · exact nffm_fold_fst_nodup uf mf ([], []) (by simp)
  · intro q
    simpa using nffm_fold_fst_keys uf mf ([], []) q
  · intro f hf hnone
    rw [nffm_fold_fst_lookup, if_pos hf]
    have hchosen : chosenKey (uf.map Prod.fst) f = none := by
      unfold chosenKey
      have : (uf.map Prod.fst).filter (fun k => lowerStr k = lowerStr f) = [] := by
        rw [List.filter_eq_nil_iff]
        intro k hk
        simpa using hnone k hk
      rw [this]
      rfl
    simp [fieldValue, hchosen]
  · have hsnd : (mf.foldl (nffmStep uf) ([], [])).2 =
        mf.filterMap (chosenKey (uf.map Prod.fst)) := by
      simpa using nffm_fold_snd uf mf ([], [])
    rw [hsnd]
    congr 1
    apply List.filter_congr
    intro k _
    simp [List.mem_filterMap]
  · exact pairwise_pySort _

/-- Closed-instance witness for `C1_canonicalize_keys_exact`. -/
theorem C1_canonicalize_keys_exact_witness :
    (normalize_fields_for_model [("front", "Q"), ("extra", "x")]
      ["Front", "Back"]).1.lookup "Back" = some "" :=
  (C1_canonicalize_keys_exact [("front", "Q"), ("extra", "x")]
    ["Front", "Back"]).2.2.1 "Back" (by decide) (by decide)

theorem mem_of_getLast?_eq_some {α : Type} {l : List α} {a : α}
    (h : l.getLast? = some a) : a ∈ l := by
  induction l with
  | nil => simp at h
  | cons x xs ih =>
      cases xs with
      | nil => simp_all
      | cons y ys =>
          rw [List.getLast?_cons_cons] at h
          exact List.mem_cons_of_mem x (ih h)

theorem lowerStr_eq_empty {s : String} (h : lowerStr s = "") : s = "" := by
  cases s with
  | mk d =>
      cases d with
      | nil => rfl
      | cons c cs =>
          exfalso
          have hd := congrArg String.data h
          simp [lowerStr] at hd

/-- C10: when several user keys differ only in letter case and all match the
same schema field, the canonicalizer uses the value of whichever of them
appears last in the map, selects exactly that one key as the (single) match
for the field, and reports every other case-variant key in `unknownKeys`. -/
theorem C10_case_variant_last_key_wins (uf : List (String × String))
    (mf : List String) (f k1 k2 l : String)
    (hnd : (uf.map Prod.fst).Nodup)
    (hk1 : k1 ∈ uf.map Prod.fst) (hk2 : k2 ∈ uf.map Prod.fst) (hne : k1 ≠ k2)
    (hl1 : lowerStr k1 = lowerStr f) (hl2 : lowerStr k2 = lowerStr f)
    (hf : f ∈ mf)
    (hlast : ((uf.map Prod.fst).filter
      (fun k => lowerStr k = lowerStr f)).getLast? = some l) :
    (normalize_fields_for_model uf mf).1.lookup f = some (pyDictGetD uf l "") ∧
    chosenKey (uf.map Prod.fst) f = some l ∧
    (∀ k ∈ uf.map Prod.fst, lowerStr k = lowerStr f → k ≠ l →
      k ∈ (normalize_fields_for_model uf mf).2.2) := by
  have hfne : f ≠ "" := by
    intro hfe
    subst hfe
    exact hne ((lowerStr_eq_empty hl1).trans (lowerStr_eq_empty hl2).symm)
  have hlmem : l ∈ (uf.map Prod.fst).filter (fun k => lowerStr k = lowerStr f) :=
    mem_of_getLast?_eq_some hlast
  have hll : lowerStr l = lowerStr f := by
    have := (List.mem_filter.mp hlmem).2
    simpa using this
  have hlne : l ≠ "" := fun hle =>
    hfne (lowerStr_eq_empty (by rw [← hll, hle]; rfl))
  have hchosen : chosenKey (uf.map Prod.fst) f = some l := by
    unfold chosenKey
    rw [hlast]
    simp [hlne]
  refine ⟨?_, hchosen, ?_⟩
  · rw [normalize_fields_for_model_eq]
    simp only []
    rw [nffm_fold_fst_lookup, if_pos hf]
    simp [fieldValue, hchosen]
  · intro k hk hklow hkne
    have hmatched : (mf.foldl (nffmStep uf) ([], [])).2 =
        mf.filterMap (chosenKey (uf.map Prod.fst)) := by
      simpa using nffm_fold_snd uf mf ([], [])
    rw [normalize_fields_for_model_eq]
    simp only []
    rw [mem_pySort, List.mem_filter]
    refine ⟨hk, ?_⟩
    rw [hmatched]
    simp only [List.mem_filterMap, decide_eq_true_eq, not_exists]
    rintro f2 ⟨hf2, hch2⟩
    have hkmem : k ∈ (uf.map Prod.fst).filter
        (fun x => lowerStr x = lowerStr f2) := by
      rcases hch : ((uf.map Prod.fst).filter
          (fun x => lowerStr x = lowerStr f2)).getLast? with _ | x
      · unfold chosenKey at hch2; rw [hch] at hch2; simp at hch2
      · have hxk : x = k := by
          unfold chosenKey at hch2; rw [hch] at hch2
          by_cases hx : x = ""
          · simp [hx] at hch2
          · simpa [hx] using hch2
        subst hxk
        exact mem_of_getLast?_eq_some hch
    have hklow2 : lowerStr k = lowerStr f2 := by
      simpa using (List.mem_filter.mp hkmem).2
    have hsame : lowerStr f2 = lowerStr f := by rw [← hklow2, hklow]
    have hfilters : (uf.map Prod.fst).filter (fun x => lowerStr x = lowerStr f2) =
        (uf.map Prod.fst).filter (fun x => lowerStr x = lowerStr f) := by
      apply List.filter_congr
      intro x _
      rw [hsame]
    have : chosenKey (uf.map Prod.fst) f2 = some l := by
      unfold chosenKey
      rw [hfilters, hlast]
      simp [hlne]
    rw [hch2] at this
    exact hkne (by simpa using this)

/-- Closed-instance witness for `C10_case_variant_last_key_wins`. -/
theorem C10_case_variant_last_key_wins_witness :
    (normalize_fields_for_model [("front", "a"), ("FRONT", "b")]
      ["Front"]).1.lookup "Front" = some "b" ∧
    "front" ∈ (normalize_fields_for_model [("front", "a"), ("FRONT", "b")]
      ["Front"]).2.2 := by
  have h := C10_case_variant_last_key_wins
    [("front", "a"), ("FRONT", "b")] ["Front"] "Front" "front" "FRONT" "FRONT"
    (by decide) (by decide) (by decide) (by decide) (by decide) (by decide)
    (by decide) (by decide)
  refine ⟨by simpa using h.1, h.2.2 "front" (by decide) (by decide) (by decide)⟩

/-- Python truthiness test `not x` for an optional string (`None` and `""` are
falsy). -/
def pyFalsyOpt (o : Option String) : Bool :=
  match o with
  | none => true
  | some v => v = ""

/-- Python `sep.join(parts)`. -/
def pyJoin (sep : String) : List String → String
  | [] => ""
  | [x] => x
  | x :: rest => x ++ sep ++ pyJoin sep rest

/-- Substring containment (`pat in s` / `re.search` for a literal). -/
def strContains (s pat : String) : Prop := pat.data <:+: s.data

instance (s pat : String) : Decidable (strContains s pat) :=
  List.decidableInfix _ _

/-- The error message assembled by `normalize_and_validate_note_fields`
(anki_mcp/services/notes.py, lines 40-47). -/
def nvErrorMessage (uf : List (String × String)) (mf : List String) : String :=
  "Unknown note fields: [" ++
    pyJoin ", " ((normalize_fields_for_model uf mf).2.2.map pyRepr) ++
    "]. Expected fields: [" ++ pyJoin ", " (mf.map pyRepr) ++
    "]. Ensure required field " ++ String.singleton squo ++ mf.headD "" ++
    String.singleton squo ++ " is provided."

/-- `normalize_and_validate_note_fields` (anki_mcp/services/notes.py, lines
29-49): canonicalize, then reject when the model has no fields, when no user
key matched, or when the primary (first) field's canonical value is empty.
(The per-name quoting in the message models Python `repr`; escaping of exotic
characters inside names is not modelled.) -/
def normalize_and_validate_note_fields (uf : List (String × String))
    (mf : List String) : Except String (List (String × String)) :=
  if mf = [] then .error "Model has no fields configured"
  else if (normalize_fields_for_model uf mf).2.1 = 0 ∨
      pyFalsyOpt ((normalize_fields_for_model uf mf).1.lookup (mf.headD ""))
  then .error (nvErrorMessage uf mf)
  else .ok (normalize_fields_for_model uf mf).1

theorem str_data_append (a b : String) : (a ++ b).data = a.data ++ b.data := by
  cases a; cases b; rfl

theorem strAppend_assoc (a b c : String) : (a ++ b) ++ c = a ++ (b ++ c) := by
  cases a with
  | mk la =>
      cases b with
      | mk lb =>
          cases c with
          | mk lc => exact congrArg String.mk (List.append_assoc la lb lc)

theorem strContains_in_left (s t pat : String) (h : strContains s pat) :
    strContains (s ++ t) pat := by
  obtain ⟨x, y, hxy⟩ := h
  exact ⟨x, y ++ t.data, by rw [str_data_append, ← hxy]; simp⟩

theorem strContains_in_right (s t pat : String) (h : strContains t pat) :
    strContains (s ++ t) pat := by
  obtain ⟨x, y, hxy⟩ := h
  exact ⟨s.data ++ x, y, by rw [str_data_append, ← hxy]; simp⟩

theorem strContains_refl (s : String) : strContains s s := ⟨[], [], by simp⟩

theorem infix_pyJoin (sep : String) (l : List String) (x : String)
    (hx : x ∈ l) : strContains (pyJoin sep l) x := by
  induction l with
  | nil => simp at hx
  | cons y rest ih =>
      cases rest with
      | nil =>
          simp only [List.mem_singleton] at hx
          subst hx
          exact strContains_refl x
      | cons z zs =>
          rcases List.mem_cons.mp hx with rfl | hmem
          · have hdef : pyJoin sep (x :: z :: zs) =
                x ++ sep ++ pyJoin sep (z :: zs) := rfl
            rw [hdef]
            exact strContains_in_left _ _ _
              (strContains_in_left _ _ _ (strContains_refl x))
          · have hdef : pyJoin sep (y :: z :: zs) =
                y ++ sep ++ pyJoin sep (z :: zs) := rfl
            rw [hdef]
            exact strContains_in_right _ _ _ (ih hmem)

theorem headD_mem {α : Type} (l : List α) (d : α) (h : l ≠ []) :
    l.headD d ∈ l := by
  cases l with
  | nil => exact absurd rfl h
  | cons x xs => simp

/-- C3: for a non-empty schema, validated canonicalization fails exactly when
no user key matched any schema field or the canonical value of the primary
(first) schema field is empty; the error message names every unknown user key
and every expected schema field, and quotes the primary field's name.  The
two concrete cases from the specification are included. -/
theorem C3_validate_requires_primary :
    (∀ (uf : List (String × String)) (mf : List String), mf ≠ [] →
      (((∃ e, normalize_and_validate_note_fields uf mf = .error e) ↔
        ((normalize_fields_for_model uf mf).2.1 = 0 ∨
          fieldValue uf (mf.headD "") = "")) ∧
      (∀ msg, normalize_and_validate_note_fields uf mf = .error msg →
        (∀ k ∈ (normalize_fields_for_model uf mf).2.2,
          strContains msg (pyRepr k)) ∧
        (∀ f ∈ mf, strContains msg (pyRepr f)) ∧
        strContains msg (String.singleton squo ++ mf.headD "" ++
          String.singleton squo)))) ∧
    (∃ msg, normalize_and_validate_note_fields [("back", "A")]
        ["Front", "Back"] = .error msg ∧ strContains msg "Front") ∧
    normalize_and_validate_note_fields [("front", "Q"), ("extra", "x")]
        ["Front", "Back"] = .ok [("Front", "Q"), ("Back", "")] ∧
    (normalize_fields_for_model [("front", "Q"), ("extra", "x")]
        ["Front", "Back"]).2.2 = ["extra"] := by
  refine ⟨?_, ⟨nvErrorMessage [("back", "A")] ["Front", "Back"],
    by rfl, by decide⟩, by rfl, by decide⟩
  intro uf mf hmf
  have hlook : (normalize_fields_for_model uf mf).1.lookup (mf.headD "") =
      some (fieldValue uf (mf.headD "")) := by
    rw [normalize_fields_for_model_eq]
    simp only []
    rw [nffm_fold_fst_lookup, if_pos (headD_mem mf "" hmf)]
  have hpf : pyFalsyOpt (some (fieldValue uf (mf.headD ""))) =
      decide (fieldValue uf (mf.headD "") = "") := rfl
  constructor
  · unfold normalize_and_validate_note_fields
    rw [if_neg hmf, hlook]
    by_cases hcond : (normalize_fields_for_model uf mf).2.1 = 0 ∨
        fieldValue uf (mf.headD "") = ""
    · have hc : ((normalize_fields_for_model uf mf).2.1 = 0 ∨
          pyFalsyOpt (some (fieldValue uf (mf.headD ""))) = true) := by
        rcases hcond with h | h
        · exact Or.inl h
        · exact Or.inr (by rw [hpf, h]; rfl)
      rw [if_pos hc]
      exact ⟨fun _ => hcond, fun _ => ⟨_, rfl⟩⟩
    · have hc : ¬ ((normalize_fields_for_model uf mf).2.1 = 0 ∨
          pyFalsyOpt (some (fieldValue uf (mf.headD ""))) = true) := by
        push_neg at hcond
        rintro (h0 | hps)
        · exact hcond.1 h0
        · rw [hpf] at hps
          exact hcond.2 (of_decide_eq_true hps)
      rw [if_neg hc]
      refine ⟨fun h => ?_, fun h => absurd h hcond⟩
      obtain ⟨e, he⟩ := h
      exact Except.noConfusion he
  · intro msg hmsg
    unfold normalize_and_validate_note_fields at hmsg
    rw [if_neg hmf] at hmsg
    by_cases hcond : ((normalize_fields_for_model uf mf).2.1 = 0 ∨
        pyFalsyOpt ((normalize_fields_for_model uf mf).1.lookup
          (mf.headD "")) = true)
    · rw [if_pos hcond] at hmsg
      have hm : nvErrorMessage uf mf = msg := by
        injection hmsg
      subst hm
      unfold nvErrorMessage
      simp only [strAppend_assoc]
      refine ⟨?_, ?_, ?_⟩
      · intro k hk
        exact strContains_in_right _ _ _ (strContains_in_left _ _ _
          (infix_pyJoin _ _ _ (List.mem_map_of_mem pyRepr hk)))
      · intro f hf
        exact strContains_in_right _ _ _ (strContains_in_right _ _ _
          (strContains_in_right _ _ _ (strContains_in_left _ _ _
            (infix_pyJoin _ _ _ (List.mem_map_of_mem pyRepr hf)))))
      · refine strContains_in_right _ _ _ (strContains_in_right _ _ _
          (strContains_in_right _ _ _ (strContains_in_right _ _ _
            (strContains_in_right _ _ _ ?_))))
        exact ⟨[], " is provided.".data, by
          simp [str_data_append, List.append_assoc]⟩
    · rw [if_neg hcond] at hmsg
      exact Except.noConfusion hmsg

/-- Closed-instance witness for `C3_validate_requires_primary`. -/
theorem C3_validate_requires_primary_witness :
    (∃ e, normalize_and_validate_note_fields [("back", "A")]
      ["Front", "Back"] = .error e) :=
  ((C3_validate_requires_primary.1 [("back", "A")] ["Front", "Back"]
    (by decide)).1).mpr (by right; decide)

/-- A Python value as it may appear in the `tags` payload: `None`, a string,
an int, a bool, a (nested) list, or a mapping.  Mapping keys are never read by
the normalizer (only `.values()` is iterated). -/
inductive PyVal where
  | pynone : PyVal
  | str (s : String) : PyVal
  | int (i : Int) : PyVal
  | bool (b : Bool) : PyVal
  | list (xs : List PyVal) : PyVal
  | dict (kvs : List (String × PyVal)) : PyVal

/-- A character splitting tags: the class `[,\s]` of the splitting regex. -/
def isTagSep (c : Char) : Bool := c = ',' ∨ pyIsSpace c

/-- Helper for `splitTokens`: `acc` holds the (reversed) current run of
non-separator characters. -/
def splitTokensAux : List Char → List Char → List String
  | [], acc => if acc = [] then [] else [String.mk acc.reverse]
  | c :: cs, acc =>
      if isTagSep c then
        if acc = [] then splitTokensAux cs []
        else String.mk acc.reverse :: splitTokensAux cs []
      else splitTokensAux cs (c :: acc)

/-- `re.split` on runs of `[,\s]+` with blank pieces dropped: the maximal runs
of non-separator characters. -/
def splitTokens (l : List Char) : List String := splitTokensAux l []

/-- Python `str(value)` for the scalar branch of the tag normalizer. -/
def pyScalarStr : PyVal → String
  | .int i => toString i
  | .bool b => if b then "True" else "False"
  | _ => ""

mutual

/-- The recursive `_consume` helper of `_normalize_note_input_tags`
(anki_mcp/schemas/notes.py, lines 65-91), returning the tags it appends. -/
def consumeTags : PyVal → List String
  | .pynone => []
  | .str s =>
      let stripped := pyStrip s
      if stripped = "" then [] else splitTokens stripped.data
  | .dict kvs => consumeTagsPairs kvs
  | .list xs => consumeTagsList xs
  | .int i =>
      let text := pyStrip (pyScalarStr (.int i))
      if text = "" then [] else [text]
  | .bool b =>
      let text := pyStrip (pyScalarStr (.bool b))
      if text = "" then [] else [text]

/-- `_consume` folded over the elements of a list value. -/
def consumeTagsList : List PyVal → List String
  | [] => []
  | v :: vs => consumeTags v ++ consumeTagsList vs

/-- `_consume` folded over the values of a mapping. -/
def consumeTagsPairs : List (String × PyVal) → List String
  | [] => []
  | (_, v) :: kvs => consumeTags v ++ consumeTagsPairs kvs

end

/-- `_normalize_note_input_tags` (anki_mcp/schemas/notes.py, lines 59-93). -/
def normalize_note_input_tags (raw : PyVal) : List String :=
  match raw with
  | .pynone => []
  | v => consumeTags v

theorem consumeTagsList_eq_flatMap (xs : List PyVal) :
    consumeTagsList xs = (xs.map consumeTags).flatten := by
  induction xs with
  | nil => simp [consumeTagsList]
  | cons v vs ih => simp [consumeTagsList, ih]

theorem consumeTagsPairs_eq_flatMap (kvs : List (String × PyVal)) :
    consumeTagsPairs kvs = ((kvs.map Prod.snd).map consumeTags).flatten := by
  induction kvs with
  | nil => simp [consumeTagsPairs]
  | cons kv rest ih =>
      obtain ⟨k, v⟩ := kv
      simp [consumeTagsPairs, ih]

theorem stringMk_ne_empty (c : Char) (l : List Char) :
    String.mk (c :: l) ≠ "" := by
  intro h
  have := congrArg String.data h
  simp at this

theorem splitTokensAux_tokens_clean (l : List Char) :
    ∀ (acc : List Char), (∀ c ∈ acc, ¬ isTagSep c) →
      ∀ t ∈ splitTokensAux l acc, t ≠ "" ∧ ∀ c ∈ t.data, ¬ isTagSep c := by
  induction l with
  | nil =>
      intro acc hacc t ht
      by_cases h : acc = []
      · rw [splitTokensAux, if_pos h] at ht
        simp at ht
      · rw [splitTokensAux, if_neg h] at ht
        simp only [List.mem_singleton] at ht
        subst ht
        cases hrev : acc.reverse with
        | nil => exact absurd (by simpa using congrArg List.reverse hrev) h
        | cons d ds =>
            refine ⟨stringMk_ne_empty d ds, ?_⟩
            intro e he
            refine hacc e ?_
            have : e ∈ acc.reverse := by rw [hrev]; exact he
            simpa using this
  | cons c cs ih =>
      intro acc hacc t ht
      by_cases hsep : isTagSep c
      · by_cases h : acc = []
        · rw [splitTokensAux, if_pos hsep, if_pos h] at ht
          exact ih [] (by simp) t ht
        · rw [splitTokensAux, if_pos hsep, if_neg h] at ht
          rcases List.mem_cons.mp ht with rfl | hmem
          · cases hrev : acc.reverse with
            | nil => exact absurd (by simpa using congrArg List.reverse hrev) h
            | cons d ds =>
                refine ⟨stringMk_ne_empty d ds, ?_⟩
                intro e he
                refine hacc e ?_
                have : e ∈ acc.reverse := by rw [hrev]; exact he
                simpa using this
          · exact ih [] (by simp) t hmem
      · rw [splitTokensAux, if_neg hsep] at ht
        refine ih (c :: acc) ?_ t ht
        intro e he
        rcases List.mem_cons.mp he with rfl | he2
        · exact hsep
        · exact hacc e he2

/-- C7: the tag normalizer maps `None` to `[]`, splits strings on runs of
commas and whitespace dropping blank tokens, recursively flattens nested
lists and mapping values, stringifies scalars, preserves order, and performs
no deduplication (witnessed by the duplicated `"a"` in the nested example). -/
theorem C7_tag_normalizer :
    normalize_note_input_tags .pynone = [] ∧
    normalize_note_input_tags (.str "a, b  c") = ["a", "b", "c"] ∧
    normalize_note_input_tags
      (.list [.str "a", .list [.str "b", .str "a"]]) = ["a", "b", "a"] ∧
    (∀ xs, normalize_note_input_tags (.list xs) =
      (xs.map consumeTags).flatten) ∧
    (∀ kvs, normalize_note_input_tags (.dict kvs) =
      ((kvs.map Prod.snd).map consumeTags).flatten) ∧
    normalize_note_input_tags (.int 42) = ["42"] ∧
    normalize_note_input_tags (.bool true) = ["True"] ∧
    (∀ s t, t ∈ normalize_note_input_tags (.str s) →
      t ≠ "" ∧ ∀ c ∈ t.data, ¬ isTagSep c) := by
  refine ⟨rfl, by decide, by decide, ?_, ?_, by decide, by decide, ?_⟩
  · intro xs
    exact consumeTagsList_eq_flatMap xs
  · intro kvs
    exact consumeTagsPairs_eq_flatMap kvs
  · intro s t ht
    simp only [normalize_note_input_tags, consumeTags] at ht
    by_cases hs : pyStrip s = ""
    · rw [if_pos hs] at ht
      simp at ht
    · rw [if_neg hs] at ht
      exact splitTokensAux_tokens_clean _ [] (by simp) t ht

/-- Closed-instance witness for `C7_tag_normalizer` (the final conjunct has
hypotheses). -/
theorem C7_tag_normalizer_witness :
    "a" ≠ "" ∧ ∀ c ∈ "a".data, ¬ isTagSep c :=
  C7_tag_normalizer.2.2.2.2.2.2.2 "a, b  c" "a" (by decide)

/-- The standard base64 alphabet. -/
def b64Alphabet : List Char :=
  "ABCDEFGHIJKLMNOPQRSTUVWXYZabcdefghijklmnopqrstuvwxyz0123456789+/".data

/-- The base64 padding character. -/
def b64PadChar : Char := Char.ofNat 61

/-- The alphabet character for a 6-bit value. -/
def valToB64Char (v : Nat) : Char := b64Alphabet.getD v b64PadChar

/-- The 6-bit value of an alphabet character (`None` outside the alphabet,
including for the padding character). -/
def b64CharVal (c : Char) : Option Nat :=
  let i := b64Alphabet.indexOf c
  if i < b64Alphabet.length then some i else none

/-- `base64.b64encode` on a byte list (bytes are `Nat` values below 256). -/
def b64EncodeBytes : List Nat → List Char
  | [] => []
  | [a] => [valToB64Char (a / 4), valToB64Char (a % 4 * 16), b64PadChar,
      b64PadChar]
  | [a, b] => [valToB64Char (a / 4), valToB64Char (a % 4 * 16 + b / 16),
      valToB64Char (b % 16 * 4), b64PadChar]
  | a :: b :: c :: rest =>
      valToB64Char (a / 4) :: valToB64Char (a % 4 * 16 + b / 16) ::
        valToB64Char (b % 16 * 4 + c / 64) :: valToB64Char (c % 64) ::
        b64EncodeBytes rest

/-- `base64.b64decode(..., validate=True)`: length must be a multiple of four,
all characters must come from the alphabet, and padding may appear only at the
end (one `=` for a 2-byte tail, two for a 1-byte tail).  Python ignores excess
bits in the final group; that leniency never matters on canonically encoded
input, which is all the sanitizer re-decodes. -/
def b64DecodeChars : List Char → Option (List Nat)
  | [] => some []
  | c1 :: c2 :: c3 :: c4 :: rest =>
      (b64CharVal c1).bind fun v1 =>
      (b64CharVal c2).bind fun v2 =>
      if c3 = b64PadChar ∧ c4 = b64PadChar ∧ rest = [] then
        some [v1 * 4 + v2 / 16]
      else if c4 = b64PadChar ∧ rest = [] then
        (b64CharVal c3).bind fun v3 =>
        some [v1 * 4 + v2 / 16, v2 % 16 * 16 + v3 / 4]
      else
        (b64CharVal c3).bind fun v3 =>
        (b64CharVal c4).bind fun v4 =>
        (b64DecodeChars rest).bind fun tail =>
        some ((v1 * 4 + v2 / 16) :: (v2 % 16 * 16 + v3 / 4) ::
          (v3 % 4 * 64 + v4) :: tail)
  | _ => none

theorem b64CharVal_valToB64Char_fin :
    ∀ v : Fin 64, b64CharVal (valToB64Char v.val) = some v.val := by decide

theorem b64CharVal_valToB64Char {v : Nat} (h : v < 64) :
    b64CharVal (valToB64Char v) = some v :=
  b64CharVal_valToB64Char_fin ⟨v, h⟩

theorem valToB64Char_ne_pad_fin :
    ∀ v : Fin 64, valToB64Char v.val ≠ b64PadChar := by decide

theorem valToB64Char_ne_pad {v : Nat} (h : v < 64) :
    valToB64Char v ≠ b64PadChar :=
  valToB64Char_ne_pad_fin ⟨v, h⟩

theorem b64CharVal_lt {c : Char} {v : Nat} (h : b64CharVal c = some v) :
    v < 64 := by
  unfold b64CharVal at h
  by_cases hi : b64Alphabet.indexOf c < b64Alphabet.length
  · rw [if_pos hi] at h
    have hv : b64Alphabet.indexOf c = v := by simpa using h
    have hlen : b64Alphabet.length = 64 := by decide
    omega
  · rw [if_neg hi] at h
    exact Option.noConfusion h

theorem b64DecodeChars_bytes_lt :
    ∀ (cs : List Char) (bs : List Nat), b64DecodeChars cs = some bs →
      ∀ b ∈ bs, b < 256 := by
  intro cs
  induction cs using b64DecodeChars.induct with
  | case1 =>
      intro bs h b hb
      simp only [b64DecodeChars] at h
      obtain rfl : ([] : List Nat) = bs := by simpa using h
      simp at hb
  | case2 c1 c2 c3 c4 rest ih =>
      intro bs h b hb
      rw [b64DecodeChars] at h
      rcases hv1 : b64CharVal c1 with _ | v1 <;> rw [hv1] at h
      · simp [Option.bind] at h
      rcases hv2 : b64CharVal c2 with _ | v2 <;> rw [hv2] at h
      · simp [Option.bind] at h
      simp only [Option.some_bind] at h
      have hb1 := b64CharVal_lt hv1
      have hb2 := b64CharVal_lt hv2
      by_cases hc1 : c3 = b64PadChar ∧ c4 = b64PadChar ∧ rest = []
      · rw [if_pos hc1] at h
        obtain rfl : [v1 * 4 + v2 / 16] = bs := by simpa using h
        simp only [List.mem_singleton] at hb
        omega
      · rw [if_neg hc1] at h
        by_cases hc2 : c4 = b64PadChar ∧ rest = []
        · rw [if_pos hc2] at h
          rcases hv3 : b64CharVal c3 with _ | v3 <;> rw [hv3] at h
          · simp [Option.bind] at h
          simp only [Option.some_bind] at h
          have hb3 := b64CharVal_lt hv3
          obtain rfl : [v1 * 4 + v2 / 16, v2 % 16 * 16 + v3 / 4] = bs := by
            simpa using h
          simp only [List.mem_cons, List.not_mem_nil, or_false] at hb
          rcases hb with rfl | rfl <;> omega
        · rw [if_neg hc2] at h
          rcases hv3 : b64CharVal c3 with _ | v3 <;> rw [hv3] at h
          · simp [Option.bind] at h
          rcases hv4 : b64CharVal c4 with _ | v4 <;> rw [hv4] at h
          · simp [Option.bind] at h
          rcases htl : b64DecodeChars rest with _ | tail <;> rw [htl] at h
          · simp [Option.bind] at h
          simp only [Option.some_bind] at h
          have hb3 := b64CharVal_lt hv3
          have hb4 := b64CharVal_lt hv4
          obtain rfl : ((v1 * 4 + v2 / 16) :: (v2 % 16 * 16 + v3 / 4) ::
              (v3 % 4 * 64 + v4) :: tail) = bs := by simpa using h
          simp only [List.mem_cons] at hb
          rcases hb with rfl | rfl | rfl | hb
          · omega
          · omega
          · omega
          · exact ih tail htl b hb
  | case3 cs hne h4 =>
      intro bs h b hb
      rw [b64DecodeChars.eq_def] at h
      rcases cs with _ | ⟨c1, _ | ⟨c2, _ | ⟨c3, _ | ⟨c4, rest⟩⟩⟩⟩
      · exact absurd rfl hne
      · exact Option.noConfusion h
      · exact Option.noConfusion h
      · exact Option.noConfusion h
      · exact absurd (h4 c1 c2 c3 c4 rest rfl) not_false

/-- Decoding a canonical encoding recovers the bytes: the base64 round trip. -/
theorem b64_decode_encode (bs : List Nat) (h : ∀ b ∈ bs, b < 256) :
    b64DecodeChars (b64EncodeBytes bs) = some bs := by
  induction bs using b64EncodeBytes.induct with
  | case1 => rfl
  | case2 a =>
      have ha : a < 256 := h a (by simp)
      rw [b64EncodeBytes, b64DecodeChars]
      rw [b64CharVal_valToB64Char (by omega : a / 4 < 64),
        b64CharVal_valToB64Char (by omega : a % 4 * 16 < 64)]
      simp
      omega
  | case3 a b =>
      have ha : a < 256 := h a (by simp)
      have hb : b < 256 := h b (by simp)
      rw [b64EncodeBytes, b64DecodeChars]
      rw [b64CharVal_valToB64Char (by omega : a / 4 < 64),
        b64CharVal_valToB64Char (by omega : a % 4 * 16 + b / 16 < 64)]
      simp only [Option.some_bind]
      rw [if_neg (by
        rintro ⟨hc3, -, -⟩
        exact valToB64Char_ne_pad (by omega : b % 16 * 4 < 64) hc3)]
      simp [b64CharVal_valToB64Char (by omega : b % 16 * 4 < 64)]
      omega
  | case4 a b c rest ih =>
      have ha : a < 256 := h a (by simp)
      have hb : b < 256 := h b (by simp)
      have hc : c < 256 := h c (by simp)
      have hrest : ∀ x ∈ rest, x < 256 := fun x hx => h x (by simp [hx])
      rw [b64EncodeBytes, b64DecodeChars]
      rw [b64CharVal_valToB64Char (by omega : a / 4 < 64),
        b64CharVal_valToB64Char (by omega : a % 4 * 16 + b / 16 < 64)]
      simp only [Option.some_bind]
      rw [if_neg (by
        rintro ⟨hc3, -, -⟩
        exact valToB64Char_ne_pad (by omega : b % 16 * 4 + c / 64 < 64) hc3)]
      rw [if_neg (by
        rintro ⟨hc4, -⟩
        exact valToB64Char_ne_pad (by omega : c % 64 < 64) hc4)]
      simp [b64CharVal_valToB64Char (by omega : b % 16 * 4 + c / 64 < 64),
        b64CharVal_valToB64Char (by omega : c % 64 < 64), ih hrest]
      omega

/-- Characters allowed in the mime subtype (the regex class
`[a-zA-Z0-9+.\-]`). -/
def isSubtypeChar (c : Char) : Bool :=
  c.isAlpha ∨ c.isDigit ∨ c = '+' ∨ c = '.' ∨ c = '-'

/-- Case-insensitively strip a (lowercase) literal from the front of a
character list. -/
def stripLowerPre (pat : List Char) (s : List Char) : Option (List Char) :=
  if (s.take pat.length).map Char.toLower = pat then some (s.drop pat.length)
  else none

/-- The `(.+)$` tail of `DATA_URL_RE`: non-empty, no interior newline; a
single trailing newline is tolerated because `$` also matches before a final
newline in Python. -/
def dataUrlRest (rest : List Char) : Option (List Char) :=
  if rest = [] then none
  else if ¬ rest.contains '\n' then some rest
  else if rest.getLast? = some '\n' ∧ ¬ rest.dropLast.contains '\n' ∧
      rest.dropLast ≠ [] then some rest.dropLast
  else none

/-- `DATA_URL_RE.match` (anki_mcp/services/media.py, line 66):
`^data:image/([a-zA-Z0-9+.\-]+);base64,(.+)$`, case-insensitive; returns the
mime subtype and the base64 payload group. -/
def matchDataUrl (s : String) : Option (String × String) :=
  match stripLowerPre "data:image/".data s.data with
  | none => none
  | some r1 =>
      let sub := r1.takeWhile isSubtypeChar
      if sub = [] then none
      else
        match stripLowerPre ";base64,".data (r1.drop sub.length) with
        | none => none
        | some r2 =>
            match dataUrlRest r2 with
            | some payload => some (String.mk sub, String.mk payload)
            | none => none

/-- `ext_from_mime` (anki_mcp/services/media.py, lines 72-82). -/
def ext_from_mime (mime_subtype : String) : String :=
  let subtype := lowerStr mime_subtype
  if subtype = "jpeg" ∨ subtype = "jpg" ∨ subtype = "pjpeg" then "jpg"
  else if subtype = "png" ∨ subtype = "x-png" then "png"
  else if subtype = "webp" then "webp"
  else if subtype = "gif" then "gif"
  else "png"

/-- `sanitize_image_payload` (anki_mcp/services/media.py, lines 130-150):
strip, try the data-URL form (strict base64 decode of the payload group), else
treat the whole string as bare base64; re-encode the decoded bytes to produce
the cleaned base64 string.  (The dynamic text of the decode exception is not
modelled.) -/
def sanitize_image_payload (payload : String) :
    Except String (String × Option String) :=
  let trimmed := pyStrip payload
  if trimmed = "" then .error "image payload is empty"
  else
    match matchDataUrl trimmed with
    | some (mime_subtype, b64_payload) =>
        match b64DecodeChars (pyStrip b64_payload).data with
        | none => .error "invalid base64 image data"
        | some raw =>
            .ok (String.mk (b64EncodeBytes raw), some (ext_from_mime mime_subtype))
    | none =>
        match b64DecodeChars trimmed.data with
        | none => .error "invalid base64 image data"
        | some raw => .ok (String.mk (b64EncodeBytes raw), none)

theorem matchDataUrl_empty : matchDataUrl "" = none := by decide

/-- C8: for every valid image data URL the sanitizer succeeds, and base64-
decoding the cleaned base64 string it returns reproduces exactly the bytes
encoded by the original payload group. -/
theorem C8_sanitize_roundtrip (s sub rest : String) (raw : List Nat)
    (hmatch : matchDataUrl (pyStrip s) = some (sub, rest))
    (hdec : b64DecodeChars (pyStrip rest).data = some raw) :
    sanitize_image_payload s =
      .ok (String.mk (b64EncodeBytes raw), some (ext_from_mime sub)) ∧
    b64DecodeChars (String.mk (b64EncodeBytes raw)).data =
      b64DecodeChars (pyStrip rest).data := by
  have hne : pyStrip s ≠ "" := by
    intro he
    rw [he, matchDataUrl_empty] at hmatch
    exact Option.noConfusion hmatch
  constructor
  · unfold sanitize_image_payload
    rw [if_neg hne, hmatch]
    simp only [hdec]
  · show b64DecodeChars (b64EncodeBytes raw) = _
    rw [hdec, b64_decode_encode raw (b64DecodeChars_bytes_lt _ _ hdec)]

/-- Closed-instance witness for `C8_sanitize_roundtrip`:
`data:image/png;base64,aGVsbG8=` decodes to the bytes of `"hello"`. -/
theorem C8_sanitize_roundtrip_witness :
    sanitize_image_payload "data:image/png;base64,aGVsbG8=" =
      .ok (String.mk (b64EncodeBytes [104, 101, 108, 108, 111]),
        some (ext_from_mime "png")) :=
  (C8_sanitize_roundtrip "data:image/png;base64,aGVsbG8=" "png" "aGVsbG8="
    [104, 101, 108, 108, 111] (by decide) (by decide)).1

/-- Does `pat` occur at the head of `l`? -/
def startsWithChars : List Char → List Char → Bool
  | [], _ => true
  | _ :: _, [] => false
  | p :: ps, c :: cs => p = c && startsWithChars ps cs

/-- Does `pat` occur anywhere in `l`? (`re.search` for a literal pattern.) -/
def containsChars (pat : List Char) : List Char → Bool
  | [] => startsWithChars pat []
  | c :: rest => startsWithChars pat (c :: rest) || containsChars pat rest

theorem startsWithChars_append (pat t : List Char) :
    startsWithChars pat (pat ++ t) = true := by
  induction pat with
  | nil => rfl
  | cons p ps ih => simp [startsWithChars, ih]

theorem containsChars_of_infix {pat l : List Char} (h : pat <:+: l) :
    containsChars pat l = true := by
  obtain ⟨s, t, hst⟩ := h
  subst hst
  induction s with
  | nil =>
      rw [List.nil_append]
      cases hpt : pat ++ t with
      | nil =>
          have hp : pat = [] := by
            cases pat with
            | nil => rfl
            | cons a as => simp at hpt
          subst hp
          rfl
      | cons c cs =>
          simp only [containsChars]
          have hsw : startsWithChars pat (c :: cs) = true := by
            rw [← hpt]
            exact startsWithChars_append pat t
          simp [hsw]
  | cons a as ih =>
      rw [List.cons_append, List.cons_append, containsChars,
        Bool.or_eq_true]
      right
      exact ih

/-- The pattern matched by the `ensure_img_tag` regex
`src=["\']<escaped filename>["\']` (case-insensitive), for one choice of the
two quote characters, against lowercased text. -/
def srcPattern (q1 q2 : Char) (filename : String) : List Char :=
  "src=".data ++ q1 :: (lowerStr filename).data ++ [q2]

/-- The two characters of the quote class in the regex. -/
def quoteChars : List Char := [dquo, squo]

/-- The `re.search` of `ensure_img_tag` (anki_mcp/services/media.py, line 31):
does the text contain `src=` followed by a quoted occurrence of the filename
(case-insensitive)? -/
def containsSrcAttr (text filename : String) : Bool :=
  quoteChars.any fun q1 => quoteChars.any fun q2 =>
    containsChars (srcPattern q1 q2 filename) (lowerStr text).data

/-- `build_img_tag` (anki_mcp/services/media.py, lines 21-25). -/
def build_img_tag (filename : String) : String :=
  "<div><img src=" ++ String.singleton dquo ++ filename ++
    String.singleton dquo ++ " style=" ++ String.singleton dquo ++
    "max-width:100%;height:auto" ++ String.singleton dquo ++ "/></div>"

/-- `ensure_img_tag` (anki_mcp/services/media.py, lines 28-37): a no-op when
an `src` attribute with this exact filename is already present, otherwise
append the `<img>` tag after the right-stripped text. -/
def ensure_img_tag (existing filename : String) : String :=
  let tag := build_img_tag filename
  if containsSrcAttr existing filename then existing
  else
    let trimmed := pyRstrip existing
    if trimmed = "" then tag else trimmed ++ "\n\n" ++ tag

theorem data_singleton (c : Char) : (String.singleton c).data = [c] := rfl

theorem lowerStr_data (s : String) :
    (lowerStr s).data = s.data.map Char.toLower := rfl

theorem tag_pattern_infix (f : String) :
    srcPattern dquo dquo f <:+: (lowerStr (build_img_tag f)).data := by
  refine ⟨"<div><img ".data,
    (" style=".data ++ [dquo] ++ "max-width:100%;height:auto".data ++
      [dquo] ++ "/></div>".data), ?_⟩
  have g1 : "<div><img src=".data.map Char.toLower = "<div><img src=".data := by
    decide
  have g2 : Char.toLower dquo = dquo := by decide
  have g3 : " style=".data.map Char.toLower = " style=".data := by decide
  have g4 : "max-width:100%;height:auto".data.map Char.toLower =
      "max-width:100%;height:auto".data := by decide
  have g5 : "/></div>".data.map Char.toLower = "/></div>".data := by decide
  have g6 : "<div><img ".data ++ "src=".data = "<div><img src=".data := by
    decide
  simp only [srcPattern, lowerStr_data, build_img_tag, str_data_append,
    data_singleton, List.map_append, List.map_cons, List.map_nil, g1, g2, g3,
    g4, g5]
  simp [List.append_assoc]

theorem containsSrcAttr_with_tag (pre f : String) :
    containsSrcAttr (pre ++ build_img_tag f) f = true := by
  have hinf : srcPattern dquo dquo f <:+:
      (lowerStr (pre ++ build_img_tag f)).data := by
    obtain ⟨s, t, hst⟩ := tag_pattern_infix f
    refine ⟨(lowerStr pre).data ++ s, t, ?_⟩
    simp only [lowerStr_data, str_data_append, List.map_append]
    rw [← lowerStr_data, ← lowerStr_data (build_img_tag f), ← hst]
    simp [List.append_assoc]
  have hcc := containsChars_of_infix hinf
  simp only [containsSrcAttr, quoteChars, List.any_cons, List.any_nil,
    Bool.or_eq_true]
  exact Or.inl (Or.inl hcc)

theorem containsSrcAttr_tag (f : String) :
    containsSrcAttr (build_img_tag f) f = true := by
  have h := containsSrcAttr_with_tag "" f
  have he : ("" : String) ++ build_img_tag f = build_img_tag f := by
    cases hb : build_img_tag f with
    | mk l => rfl
  rwa [he] at h

/-- C9: appending an image tag for a given filename is idempotent — a second
append is a no-op because the first append leaves an `src` attribute with
that exact filename in the text. -/
theorem C9_ensure_img_tag_idempotent :
    (∀ existing filename : String,
      ensure_img_tag (ensure_img_tag existing filename) filename =
        ensure_img_tag existing filename) ∧
    (∀ existing filename : String,
      containsSrcAttr existing filename = true →
        ensure_img_tag existing filename = existing) := by
  have hnoop : ∀ existing filename : String,
      containsSrcAttr existing filename = true →
        ensure_img_tag existing filename = existing := by
    intro t f h
    simp [ensure_img_tag, h]
  refine ⟨?_, hnoop⟩
  intro t f
  by_cases h : containsSrcAttr t f
  · rw [hnoop t f h]
    exact hnoop t f h
  · have hr : ensure_img_tag t f =
        (if pyRstrip t = "" then build_img_tag f
         else pyRstrip t ++ "\n\n" ++ build_img_tag f) := by
      simp [ensure_img_tag, h]
    by_cases ht : pyRstrip t = ""
    · rw [hr, if_pos ht]
      exact hnoop _ _ (containsSrcAttr_tag f)
    · rw [hr, if_neg ht]
      exact hnoop _ _ (containsSrcAttr_with_tag (pyRstrip t ++ "\n\n") f)

/-- Closed-instance witness for `C9_ensure_img_tag_idempotent`. -/
theorem C9_ensure_img_tag_idempotent_witness :
    ensure_img_tag (build_img_tag "a.png") "a.png" = build_img_tag "a.png" :=
  C9_ensure_img_tag_idempotent.2 (build_img_tag "a.png") "a.png" (by decide)

/-! ## Embedding of `anki_mcp/tools/notes.py`

Remote I/O is modelled by oracle functions collected in `Ctx`; each function
stands for the awaited response of (or exception raised by) one kind of
remote call.  Every call issued is recorded, in order, in a `RemoteCall`
trace that the embedded operations return alongside their result.  Two pure
external helpers with no bearing on any claim are also oracle parameters:
`sha1hex` (for `hashlib.sha1(...).hexdigest()`), `freshName` (for
`uuid.uuid4().hex`, fed by a counter), and `autoLink` (for
`media_services.auto_link_urls`, a pure text rewrite). -/

/-- One note object of an `addNotes` payload. -/
structure NotePayload where
  deckName : String
  modelName : String
  fields : List (String × String)
  tags : List String
deriving DecidableEq

/-- A remote AnkiConnect call, with the parameters relevant to the claims. -/
inductive RemoteCall where
  | createDeck (deck : String)
  | modelFieldNames (model : String)
  | storeMediaFile (filename : String) (data : String)
  | addNotesCall (notes : List NotePayload)
  | notesInfo (ids : List Int)
  | updateNoteFields (id : Int) (fields : List (String × String))
  | addTags (ids : List Int) (tags : String)
  | removeTags (ids : List Int) (tags : String)
  | changeDeck (cards : List Int) (deck : String)
deriving DecidableEq

/-- A per-index detail record of a batch add. -/
structure AddDetail where
  index : Nat
  status : String
  noteId : Option Int := Option.none
  dedup_key : Option String := Option.none
deriving DecidableEq

/-- An entry of the heterogeneous `results` list (warnings, info lines and
final detail records). -/
inductive LogEntry where
  | warn (index : Nat) (msg : String)
  | warnField (index : Nat) (msg : String) (fieldName : String)
  | info (index : Nat) (msg : String)
  | detail (d : AddDetail)
deriving DecidableEq

/-- A fetched note (the normalized `notesInfo` entry). -/
structure NoteInfoL where
  note_id : Int
  model_name : Option String := Option.none
  deck_name : Option String := Option.none
  tags : List String := []
  fields : List (String × String) := []
  cards : List Int := []
deriving DecidableEq

/-- An `ImageSpec`. -/
structure ImageL where
  image_base64 : Option String := Option.none
  image_url : Option String := Option.none
  target_field : String := "Back"
  filename : Option String := Option.none
  max_side : Int := 768
deriving DecidableEq

/-- A `NoteInput`, after pydantic validation. -/
structure NoteInputL where
  fields : List (String × String)
  tags : List String := []
  images : List ImageL := []
  dedup_key : Option String := Option.none
  deck : Option String := Option.none
  model : Option String := Option.none
deriving DecidableEq

/-- A `NoteUpdate`; `fields` models the patch after the scalar-coercion loop
of `update_notes` (lines 651-665) that stringifies keys and values. -/
structure NoteUpdateL where
  note_id : Int
  fields : Option (List (String × String)) := Option.none
  add_tags : List String := []
  remove_tags : List String := []
  deck : Option String := Option.none
  images : List ImageL := []
deriving DecidableEq

/-- Oracles for remote responses and external pure helpers.  A `some msg` /
`.error msg` value models the call raising an exception with that text. -/
structure Ctx where
  modelFields : String → Except String (List String)
  createDeck : String → Option String
  store : String → String → Option String
  fetch : String → Int → Except String String
  mutate : RemoteCall → Option String
  addNotesResp : List NotePayload → Except String (List (Option Int))
  notesInfoResp : List Int → Except String (List (Option NoteInfoL))
  sha1hex : List Nat → String
  freshName : Nat → String
  autoLink : String → String

/-- Python truthiness of an optional string. -/
def optTruthy (o : Option String) : Bool :=
  match o with
  | Option.none => false
  | some s => s ≠ ""

/-- Booleanized error test for `Except`. -/
def exceptIsError {α : Type} (e : Except String α) : Bool :=
  match e with
  | .error _ => true
  | .ok _ => false

/-- First-seen-order deduplication (the only property of the Python `set`
of decks the code relies on is its element set; the iteration order of a
CPython set is implementation-defined, modelled here as first-seen order). -/
def dedupStrings (l : List String) : List String :=
  l.foldl (fun acc d => if d ∈ acc then acc else acc ++ [d]) []

/-- Characters of the inline base64 group class `[a-zA-Z0-9+/=]`. -/
def isB64Char (c : Char) : Bool :=
  c.isAlpha ∨ c.isDigit ∨ c = '+' ∨ c = '/' ∨ c = '='

/-- A match of `DATA_URL_INLINE_RE` (anki_mcp/services/media.py, line 67)
anchored at the head of `s`: mime subtype, base64 group, and total length. -/
def matchInlineAt (s : List Char) : Option (String × String × Nat) :=
  match stripLowerPre "data:image/".data s with
  | Option.none => Option.none
  | some r1 =>
      let sub := r1.takeWhile isSubtypeChar
      if sub = [] then Option.none
      else
        match stripLowerPre ";base64,".data (r1.drop sub.length) with
        | Option.none => Option.none
        | some r2 =>
            let b64 := r2.takeWhile isB64Char
            if b64 = [] then Option.none
            else some (String.mk sub, String.mk b64,
              "data:image/".length + sub.length + ";base64,".length +
                b64.length)

/-- Is there an inline data-URL match anywhere in the text? -/
def hasInline : List Char → Bool
  | [] => false
  | c :: rest => (matchInlineAt (c :: rest)).isSome || hasInline rest

/-- The body of the per-match `try` block of `process_data_urls_in_fields`
(anki_mcp/services/media.py, lines 175-192): sanitize, decode, hash, store.
Returns the saved filename (`none` on failure), the results entries, and the
remote calls issued. -/
def handleDataUrlMatch (ctx : Ctx) (noteIndex : Nat) (key : String)
    (dataUrl : String) (subtype : Option String) :
    Option String × List LogEntry × List RemoteCall :=
  match sanitize_image_payload dataUrl with
  | .error e =>
      (Option.none,
       [.warn noteIndex ("data_url_failed:" ++ key ++ ": " ++ e)], [])
  | .ok (clean_b64, ext_hint) =>
      match b64DecodeChars clean_b64.data with
      | Option.none =>
          (Option.none,
           [.warn noteIndex
             ("data_url_failed:" ++ key ++ ": invalid base64 image data")], [])
      | some raw =>
          let digest := ctx.sha1hex raw
          let extension :=
            match ext_hint with
            | some e =>
                if e ≠ "" then e
                else match subtype with
                  | some sub => ext_from_mime sub
                  | Option.none => "png"
            | Option.none =>
                match subtype with
                | some sub => ext_from_mime sub
                | Option.none => "png"
          let filename := "img_" ++ digest ++ "." ++ extension
          let storeRes :=
            match ctx.store filename clean_b64 with
            | some err =>
                ((Option.none : Option String),
                 [LogEntry.warn noteIndex
                   ("data_url_failed:" ++ key ++ ": " ++ err)])
            | Option.none =>
                (some filename,
                 [LogEntry.info noteIndex
                   ("data_url_saved:" ++ key ++ "->" ++ filename)])
          (storeRes.1, storeRes.2, [.storeMediaFile filename clean_b64])

/-- Left-to-right, non-overlapping scan for inline data URLs (the `finditer`
loop of lines 174-197), rebuilding the text: a successfully stored match is
dropped from the text, a failed one is kept verbatim.  `fuel` (initially the
text length) makes the recursion structural; matches are non-empty, so the
fuel never runs out. -/
def scanDataUrlsAux (ctx : Ctx) (noteIndex : Nat) (key : String) :
    Nat → List Char →
    List Char × List String × List LogEntry × List RemoteCall
  | 0, s => (s, [], [], [])
  | _ + 1, [] => ([], [], [], [])
  | fuel + 1, c :: rest =>
      match matchInlineAt (c :: rest) with
      | some (sub, _, len) =>
          let dataUrl := String.mk ((c :: rest).take len)
          let handled := handleDataUrlMatch ctx noteIndex key dataUrl (some sub)
          let recur := scanDataUrlsAux ctx noteIndex key fuel
            ((c :: rest).drop len)
          match handled.1 with
          | some fn =>
              (recur.1, fn :: recur.2.1, handled.2.1 ++ recur.2.2.1,
               handled.2.2 ++ recur.2.2.2)
          | Option.none =>
              ((c :: rest).take len ++ recur.1, recur.2.1,
               handled.2.1 ++ recur.2.2.1, handled.2.2 ++ recur.2.2.2)
      | Option.none =>
          let recur := scanDataUrlsAux ctx noteIndex key fuel rest
          (c :: recur.1, recur.2.1, recur.2.2.1, recur.2.2.2)

/-- Process one field value (one iteration of the `for key, value` loop of
`process_data_urls_in_fields`, lines 156-203): returns the new value, the
results entries, and the calls issued.  A value with no match is untouched. -/
def processFieldValue (ctx : Ctx) (noteIndex : Nat) (key value : String) :
    String × List LogEntry × List RemoteCall :=
  if hasInline value.data then
    let r := scanDataUrlsAux ctx noteIndex key value.data.length value.data
    let cleanText :=
      r.2.1.foldl (fun acc fn => ensure_img_tag acc fn)
        (pyStrip (String.mk r.1))
    (cleanText, r.2.2.1, r.2.2.2)
  else
    match matchDataUrl (pyStrip value) with
    | some (sub, _) =>
        let trimmed := pyStrip value
        let handled := handleDataUrlMatch ctx noteIndex key trimmed (some sub)
        match handled.1 with
        | some fn => (ensure_img_tag (pyStrip "") fn, handled.2.1, handled.2.2)
        | Option.none => (pyStrip trimmed, handled.2.1, handled.2.2)
    | Option.none => (value, [], [])

/-- `process_data_urls_in_fields` (anki_mcp/services/media.py, lines
153-203), as a pure transformation of the fields dict plus the results
entries and remote calls it produces. -/
def process_data_urls_in_fields (ctx : Ctx) (noteIndex : Nat) :
    List (String × String) →
    List (String × String) × List LogEntry × List RemoteCall
  | [] => ([], [], [])
  | (k, v) :: rest =>
      let r1 := processFieldValue ctx noteIndex k v
      let r2 := process_data_urls_in_fields ctx noteIndex rest
      ((k, r1.1) :: r2.1, r1.2.1 ++ r2.2.1, r1.2.2 ++ r2.2.2)

/-- `fetch_image_as_base64` (anki_mcp/services/media.py, lines 85-127): the
`max_side` guard is code; the network fetch and image re-encoding are the
`ctx.fetch` oracle. -/
def fetch_image_as_base64 (ctx : Ctx) (url : String) (max_side : Int) :
    Except String String :=
  if max_side < 1 then .error "max_side must be at least 1"
  else ctx.fetch url max_side

/-- `_ensure_model_context` (anki_mcp/tools/notes.py, lines 480-492): fetch
and memoize the model's ordered field list; the canonical (lowercase → field)
map is a pure function of that list. -/
def ensureModelContext (ctx : Ctx) (cache : List (String × List String))
    (model_name : String) :
    List RemoteCall ×
      Except String (List String × List (String × String) ×
        List (String × List String)) :=
  match cache.lookup model_name with
  | some flds => ([], .ok (flds, lowerKeyMap flds, cache))
  | Option.none =>
      match ctx.modelFields model_name with
      | .error e => ([.modelFieldNames model_name], .error e)
      | .ok flds =>
          ([.modelFieldNames model_name],
           .ok (flds, lowerKeyMap flds, cache ++ [(model_name, flds)]))

/-- One iteration of the explicit-images loop of `add_notes`
(anki_mcp/tools/notes.py, lines 530-562; the strict variant that raises on an
unknown target field).  A warning leaves the fields unchanged and continues;
the `ValueError` for an unknown target aborts the whole operation. -/
def addNoteImageStep (ctx : Ctx) (index : Nat) (model_fields : List String)
    (canonical_field_map : List (String × String)) (img : ImageL)
    (fields : List (String × String)) (ctr : Nat) :
    List RemoteCall × List LogEntry ×
      Except String (List (String × String) × Nat) :=
  let resolved : Option (String × Option String) × List LogEntry :=
    if optTruthy img.image_base64 then
      match sanitize_image_payload (img.image_base64.getD "") with
      | .error e =>
          (Option.none, [.warn index ("invalid_image_base64: " ++ e)])
      | .ok (data_b64, ext_hint) => (some (data_b64, ext_hint), [])
    else if optTruthy img.image_url then
      match fetch_image_as_base64 ctx (img.image_url.getD "")
          img.max_side with
      | .error e =>
          (Option.none, [.warn index ("fetch_image_failed: " ++ e)])
      | .ok data_b64 => (some (data_b64, Option.none), [])
    else (Option.none, [.warn index "no_image_provided"])
  match resolved with
  | (Option.none, logs0) => ([], logs0, .ok (fields, ctr))
  | (some (data_b64, ext_hint), _) =>
      let named :=
        if optTruthy img.filename then (img.filename.getD "", ctr)
        else
          (ctx.freshName ctr ++ "." ++
            (match ext_hint with
             | some e => if e ≠ "" then e else "jpg"
             | Option.none => "jpg"), ctr + 1)
      let canonical_target :=
        (canonical_field_map.lookup (lowerStr img.target_field)).getD ""
      if canonical_target = "" then
        ([], [],
         .error ("Unknown image target field " ++ pyRepr img.target_field ++
           " for note index " ++ toString index ++ ". Allowed fields: [" ++
           pyJoin ", " (model_fields.map pyRepr) ++ "]"))
      else
        let stepRes : List (String × String) × List LogEntry :=
          match ctx.store named.1 data_b64 with
          | some err =>
              (fields, [.warn index ("store_media_failed: " ++ err)])
          | Option.none =>
              (pyDictSet fields canonical_target
                (ensure_img_tag (pyDictGetD fields canonical_target "")
                  named.1), [])
        ([.storeMediaFile named.1 data_b64], stepRes.2,
         .ok (stepRes.1, named.2))

/-- The explicit-images loop of `add_notes` (lines 530-562). -/
def addNoteImagesLoop (ctx : Ctx) (index : Nat) (model_fields : List String)
    (canonical_field_map : List (String × String)) :
    List ImageL → List (String × String) → Nat →
    List RemoteCall × List LogEntry ×
      Except String (List (String × String) × Nat)
  | [], fields, ctr => ([], [], .ok (fields, ctr))
  | img :: rest, fields, ctr =>
      let st := addNoteImageStep ctx index model_fields canonical_field_map
        img fields ctr
      match st.2.2 with
      | .error e => (st.1, st.2.1, .error e)
      | .ok (fields2, ctr2) =>
          let r := addNoteImagesLoop ctx index model_fields
            canonical_field_map rest fields2 ctr2
          (st.1 ++ r.1, st.2.1 ++ r.2.1, r.2.2)

/-- The `Sources` auto-linking pass of `add_notes` (lines 524-526). -/
def applySourcesAutoLink (ctx : Ctx) (fields : List (String × String)) :
    List (String × String) :=
  fields.map fun kv =>
    if lowerStr kv.1 = "sources" then (kv.1, ctx.autoLink kv.2) else kv

/-- Build one note's payload (the body of the `for index, note` loop of
`add_notes`, lines 516-572). -/
def addNotesProcessNote (ctx : Ctx) (index : Nat) (note : NoteInputL)
    (note_deck note_model : String) (model_fields : List String)
    (canonical_field_map : List (String × String)) (ctr : Nat) :
    List RemoteCall × List LogEntry × Except String (NotePayload × Nat) :=
  match normalize_and_validate_note_fields note.fields model_fields with
  | .error e => ([], [], .error e)
  | .ok fields0 =>
      let fields1 := applySourcesAutoLink ctx fields0
      let r1 := process_data_urls_in_fields ctx index fields1
      let r2 := addNoteImagesLoop ctx index model_fields canonical_field_map
        note.images r1.1 ctr
      match r2.2.2 with
      | .error e => (r1.2.2 ++ r2.1, r1.2.1 ++ r2.2.1, .error e)
      | .ok (fields3, ctr2) =>
          (r1.2.2 ++ r2.1, r1.2.1 ++ r2.2.1,
           .ok ({deckName := note_deck, modelName := note_model,
                 fields := fields3, tags := note.tags}, ctr2))

/-- The deck pre-creation loop of `add_notes` (lines 513-514). -/
def createDecksLoop (ctx : Ctx) : List String →
    List RemoteCall × Except String Unit
  | [] => ([], .ok ())
  | d :: rest =>
      match ctx.createDeck d with
      | some e => ([.createDeck d], .error ("Anki error: " ++ e))
      | Option.none =>
          let r := createDecksLoop ctx rest
          (RemoteCall.createDeck d :: r.1, r.2)

/-- The payload-building loop of `add_notes` over all drafts. -/
def addNotesLoop (ctx : Ctx) (deck model : String) :
    List NoteInputL → Nat → List (String × List String) → Nat →
    List RemoteCall × List LogEntry × Except String (List NotePayload)
  | [], _, _, _ => ([], [], .ok [])
  | note :: rest, index, cache, ctr =>
      let note_deck := if optTruthy note.deck then note.deck.getD "" else deck
      let note_model :=
        if optTruthy note.model then note.model.getD "" else model
      let mc := ensureModelContext ctx cache note_model
      match mc.2 with
      | .error e => (mc.1, [], .error e)
      | .ok (model_fields, canonical_field_map, cache2) =>
          let pn := addNotesProcessNote ctx index note note_deck note_model
            model_fields canonical_field_map ctr
          match pn.2.2 with
          | .error e => (mc.1 ++ pn.1, pn.2.1, .error e)
          | .ok (payload, ctr2) =>
              let r := addNotesLoop ctx deck model rest (index + 1) cache2 ctr2
              (mc.1 ++ pn.1 ++ r.1, pn.2.1 ++ r.2.1,
               match r.2.2 with
               | .error e => .error e
               | .ok payloads => .ok (payload :: payloads))

/-- One detail record of the `addNotes` response loop (lines 576-589). -/
def mkAddDetail (idx : Nat) (resp : Option Int) (ded : Option String) :
    AddDetail :=
  match resp with
  | Option.none =>
      {index := idx, status := "duplicate", noteId := Option.none,
       dedup_key := ded}
  | some nid =>
      {index := idx, status := "ok", noteId := some nid, dedup_key := ded}

/-- The positional response loop of `add_notes` (lines 576-589): walk the
`addNotes` response array, look up each draft's dedup key by position
(an out-of-range index is Python's `IndexError`, caught by the surrounding
`try`), and accumulate counters and detail records. -/
def addNotesFinish (deds : List (Option String)) :
    List (Option Int) → Nat → Nat → Nat → List LogEntry →
    Except String (Nat × Nat × List LogEntry)
  | [], _, added, skipped, results => .ok (added, skipped, results)
  | r :: rest, idx, added, skipped, results =>
      match deds.get? idx with
      | Option.none => .error "list index out of range"
      | some ded =>
          match r with
          | Option.none =>
              addNotesFinish deds rest (idx + 1) added (skipped + 1)
                (results ++ [.detail (mkAddDetail idx Option.none ded)])
          | some nid =>
              addNotesFinish deds rest (idx + 1) (added + 1) skipped
                (results ++ [.detail (mkAddDetail idx (some nid) ded)])

/-- The arguments of `add_notes` after pydantic validation. -/
structure AddNotesArgsL where
  deck : String
  model : String
  notes : List NoteInputL

/-- The `AddNotesResult`. -/
structure AddNotesResultL where
  added : Nat
  skipped : Nat
  details : List LogEntry
deriving DecidableEq

/-- `add_notes` (anki_mcp/tools/notes.py, lines 495-593): pre-create the
union of effective decks, build each draft's payload (validation, sources
auto-link, inline data-URL extraction, explicit images), issue the single
`addNotes` call and map its positional response back onto per-draft detail
records.  Returns the full remote-call trace next to the result. -/
def add_notes (ctx : Ctx) (args : AddNotesArgsL) :
    List RemoteCall × Except String AddNotesResultL :=
  let decks_to_create := dedupStrings (args.deck ::
    args.notes.filterMap fun n =>
      if optTruthy n.deck then some (n.deck.getD "") else Option.none)
  let dc := createDecksLoop ctx decks_to_create
  match dc.2 with
  | .error e => (dc.1, .error e)
  | .ok () =>
      let lp := addNotesLoop ctx args.deck args.model args.notes 0 [] 0
      match lp.2.2 with
      | .error e => (dc.1 ++ lp.1, .error e)
      | .ok payloads =>
          let calls := dc.1 ++ lp.1 ++ [.addNotesCall payloads]
          match ctx.addNotesResp payloads with
          | .error e => (calls, .error ("addNotes_failed: " ++ e))
          | .ok response =>
              match addNotesFinish (args.notes.map (·.dedup_key)) response
                  0 0 0 lp.2.1 with
              | .error e => (calls, .error ("addNotes_failed: " ++ e))
              | .ok (added, skipped, results) =>
                  (calls, .ok ⟨added, skipped, results⟩)

theorem countP_isSome_add_isNone (resp : List (Option Int)) :
    resp.countP Option.isSome + resp.countP Option.isNone = resp.length := by
  induction resp with
  | nil => rfl
  | cons r rest ih =>
      cases r <;> simp [List.countP_cons] <;> omega

theorem addNotesFinish_go (deds : List (Option String)) :
    ∀ (resp : List (Option Int)) (idx added skipped : Nat)
      (results : List LogEntry), idx + resp.length = deds.length →
      addNotesFinish deds resp idx added skipped results =
        .ok (added + resp.countP Option.isSome,
             skipped + resp.countP Option.isNone,
             results ++ (resp.enumFrom idx).map fun p =>
               .detail (mkAddDetail p.1 p.2
                 ((deds.get? p.1).getD Option.none))) := by
  intro resp
  induction resp with
  | nil =>
      intro idx added skipped results h
      simp [addNotesFinish]
  | cons r rest ih =>
      intro idx added skipped results h
      have hidx : idx < deds.length := by
        simp only [List.length_cons] at h; omega
      rw [addNotesFinish]
      cases hq : deds.get? idx with
      | none =>
          exact absurd (List.get?_eq_none.mp hq) (by omega)
      | some d =>
          have hlen2 : (idx + 1) + rest.length = deds.length := by
            simp only [List.length_cons] at h; omega
          cases r with
          | none =>
              change addNotesFinish deds rest (idx + 1) added (skipped + 1)
                (results ++ [LogEntry.detail (mkAddDetail idx Option.none d)]) = _
              rw [ih (idx + 1) added (skipped + 1) _ hlen2]
              simp only [List.countP_cons, List.enumFrom_cons, List.map_cons,
                Option.isSome_none, Option.isNone_none, hq]
              rw [List.append_assoc]
              simp [Nat.add_assoc, Nat.add_comm 1]
          | some nid =>
              change addNotesFinish deds rest (idx + 1) (added + 1) skipped
                (results ++ [LogEntry.detail (mkAddDetail idx (some nid) d)]) = _
              rw [ih (idx + 1) (added + 1) skipped _ hlen2]
              simp only [List.countP_cons, List.enumFrom_cons, List.map_cons,
                Option.isSome_some, Option.isNone_some, hq]
              rw [List.append_assoc]
              simp [Nat.add_assoc, Nat.add_comm 1]

/-- C2: for a batch that reaches the single `addNotes` submit call, given a
positional response of the batch's length: each `null` entry yields a detail
record with status `"duplicate"`, each non-null entry yields status `"ok"`
carrying the value as `noteId` (see `mkAddDetail`); `added` counts the
non-null entries, `skipped` the nulls, so `added + skipped` equals the batch
size; and each draft's dedup key is echoed into its detail record regardless
of outcome. -/
theorem C2_batch_add_response_mapping (deds : List (Option String))
    (resp : List (Option Int)) (prior : List LogEntry)
    (h : resp.length = deds.length) :
    addNotesFinish deds resp 0 0 0 prior =
      .ok (resp.countP Option.isSome, resp.countP Option.isNone,
        prior ++ (resp.enumFrom 0).map fun p =>
          .detail (mkAddDetail p.1 p.2 ((deds.get? p.1).getD Option.none))) ∧
    resp.countP Option.isSome + resp.countP Option.isNone = resp.length := by
  refine ⟨?_, countP_isSome_add_isNone resp⟩
  have := addNotesFinish_go deds resp 0 0 0 prior (by omega)
  simpa using this

/-- Closed-instance witness for `C2_batch_add_response_mapping`: the
specification's example — two drafts, remote returns `[111, null]`. -/
theorem C2_batch_add_response_mapping_witness :
    addNotesFinish [Option.none, some "k"] [some 111, Option.none] 0 0 0 [] =
      .ok (1, 1,
        [.detail ⟨0, "ok", some 111, Option.none⟩,
         .detail ⟨1, "duplicate", Option.none, some "k"⟩]) := by
  have h := (C2_batch_add_response_mapping [Option.none, some "k"]
    [some 111, Option.none] [] (by decide)).1
  simpa using h

/-- Is a call the single batched `addNotes` submit call? -/
def isSubmit : RemoteCall → Bool
  | .addNotesCall _ => true
  | _ => false

/-- The effective model of a draft (`note.model or model`). -/
def effModel (note : NoteInputL) (dflt : String) : String :=
  if optTruthy note.model then note.model.getD "" else dflt

/-- Every cache entry records a successful `modelFieldNames` response. -/
def cacheOK (ctx : Ctx) (cache : List (String × List String)) : Prop :=
  ∀ p ∈ cache, ctx.modelFields p.1 = .ok p.2

theorem lookup_mem_cache :
    ∀ (l : List (String × List String)) (k : String) (v : List String),
      l.lookup k = some v → (k, v) ∈ l := by
  intro l
  induction l with
  | nil => intro k v h; simp [List.lookup] at h
  | cons p rest ih =>
      intro k v h
      obtain ⟨k1, v1⟩ := p
      by_cases hk : k = k1
      · subst hk
        simp only [List.lookup, beq_self_eq_true] at h
        obtain rfl : v1 = v := by simpa using h
        simp
      · simp only [List.lookup, beq_false_of_ne hk] at h
        exact List.mem_cons_of_mem _ (ih k v h)

theorem ensureModelContext_ok (ctx : Ctx) (cache : List (String × List String))
    (m : String) (h : cacheOK ctx cache) (flds : List String)
    (cmap : List (String × String)) (cache2 : List (String × List String))
    (hok : (ensureModelContext ctx cache m).2 = .ok (flds, cmap, cache2)) :
    ctx.modelFields m = .ok flds ∧ cacheOK ctx cache2 := by
  unfold ensureModelContext at hok
  cases hc : cache.lookup m with
  | some cached =>
      rw [hc] at hok
      have htup : cached = flds ∧ lowerKeyMap cached = cmap ∧
          cache = cache2 := by simpa using hok
      refine ⟨?_, ?_⟩
      · rw [← htup.1]
        exact h (m, cached) (lookup_mem_cache cache m cached hc)
      · rw [← htup.2.2]
        exact h
  | none =>
      rw [hc] at hok
      cases hm : ctx.modelFields m with
      | error e => rw [hm] at hok; simp at hok
      | ok flds0 =>
          rw [hm] at hok
          have htup : flds0 = flds ∧ lowerKeyMap flds0 = cmap ∧
              cache ++ [(m, flds0)] = cache2 := by simpa using hok
          refine ⟨?_, ?_⟩
          · exact congrArg Except.ok htup.1
          · rw [← htup.2.2]
            intro p hp
            rcases List.mem_append.mp hp with hp1 | hp2
            · exact h p hp1
            · simp only [List.mem_singleton] at hp2
              subst hp2
              exact hm

theorem createDecksLoop_noSubmit (ctx : Ctx) (l : List String) :
    ∀ c ∈ (createDecksLoop ctx l).1, isSubmit c = false := by
  induction l with
  | nil => intro c hc; simp [createDecksLoop] at hc
  | cons d rest ih =>
      intro c hc
      unfold createDecksLoop at hc
      cases hcd : ctx.createDeck d with
      | some e =>
          rw [hcd] at hc
          simp only [List.mem_singleton] at hc
          subst hc; rfl
      | none =>
          rw [hcd] at hc
          simp only [List.mem_cons] at hc
          rcases hc with rfl | hc2
          · rfl
          · exact ih c hc2

theorem handleDataUrlMatch_noSubmit (ctx : Ctx) (i : Nat) (k du : String)
    (sub : Option String) :
    ∀ c ∈ (handleDataUrlMatch ctx i k du sub).2.2, isSubmit c = false := by
  intro c hc
  unfold handleDataUrlMatch at hc
  all_goals try split at hc
  all_goals try split at hc
  all_goals try split at hc
  all_goals try split at hc
  all_goals try split at hc
  all_goals try split at hc
  all_goals
    first
      | (subst hc; rfl)
      | (simp only [List.mem_singleton] at hc; subst hc; rfl)
      | simp at hc

theorem scanDataUrlsAux_noSubmit (ctx : Ctx) (i : Nat) (k : String) :
    ∀ (fuel : Nat) (s : List Char),
      ∀ c ∈ (scanDataUrlsAux ctx i k fuel s).2.2.2, isSubmit c = false := by
  intro fuel
  induction fuel with
  | zero => intro s c hc; simp [scanDataUrlsAux] at hc
  | succ n ih =>
      intro s c hc
      cases s with
      | nil => simp [scanDataUrlsAux] at hc
      | cons ch rest =>
          unfold scanDataUrlsAux at hc
          cases hm : matchInlineAt (ch :: rest) with
          | some t =>
              obtain ⟨sub, b64, len⟩ := t
              rw [hm] at hc
              simp only [] at hc
              cases hh : (handleDataUrlMatch ctx i k
                  (String.mk ((ch :: rest).take len)) (some sub)).1 with
              | some fn =>
                  rw [hh] at hc
                  simp only [List.mem_append] at hc
                  rcases hc with hc1 | hc2
                  · exact handleDataUrlMatch_noSubmit ctx i k _ _ c hc1
                  · exact ih _ c hc2
              | none =>
                  rw [hh] at hc
                  simp only [List.mem_append] at hc
                  rcases hc with hc1 | hc2
                  · exact handleDataUrlMatch_noSubmit ctx i k _ _ c hc1
                  · exact ih _ c hc2
          | none =>
              rw [hm] at hc
              exact ih rest c hc

theorem processFieldValue_noSubmit (ctx : Ctx) (i : Nat) (k v : String) :
    ∀ c ∈ (processFieldValue ctx i k v).2.2, isSubmit c = false := by
  intro c hc
  unfold processFieldValue at hc
  by_cases hinl : hasInline v.data
  · rw [if_pos hinl] at hc
    exact scanDataUrlsAux_noSubmit ctx i k _ _ c hc
  · rw [if_neg hinl] at hc
    cases hm : matchDataUrl (pyStrip v) with
    | some t =>
        obtain ⟨sub, rest⟩ := t
        rw [hm] at hc
        simp only [] at hc
        cases hh : (handleDataUrlMatch ctx i k (pyStrip v) (some sub)).1 with
        | some fn =>
            rw [hh] at hc
            exact handleDataUrlMatch_noSubmit ctx i k _ _ c hc
        | none =>
            rw [hh] at hc
            exact handleDataUrlMatch_noSubmit ctx i k _ _ c hc
    | none =>
        rw [hm] at hc
        simp at hc

theorem process_data_urls_noSubmit (ctx : Ctx) (i : Nat) :
    ∀ (fields : List (String × String)),
      ∀ c ∈ (process_data_urls_in_fields ctx i fields).2.2,
        isSubmit c = false := by
  intro fields
  induction fields with
  | nil => intro c hc; simp [process_data_urls_in_fields] at hc
  | cons kv rest ih =>
      intro c hc
      obtain ⟨k, v⟩ := kv
      unfold process_data_urls_in_fields at hc
      simp only [List.mem_append] at hc
      rcases hc with hc1 | hc2
      · exact processFieldValue_noSubmit ctx i k v c hc1
      · exact ih c hc2

theorem addNoteImageStep_noSubmit (ctx : Ctx) (i : Nat)
    (mf : List String) (cmap : List (String × String)) (img : ImageL)
    (fields : List (String × String)) (ctr : Nat) :
    ∀ c ∈ (addNoteImageStep ctx i mf cmap img fields ctr).1,
      isSubmit c = false := by
  intro c hc
  unfold addNoteImageStep at hc
  all_goals try split at hc
  all_goals try simp only [] at hc
  all_goals try split at hc
  all_goals try simp only [] at hc
  all_goals try split at hc
  all_goals try simp only [] at hc
  all_goals try split at hc
  all_goals try simp only [] at hc
  all_goals
    first
      | (subst hc; rfl)
      | (simp only [List.mem_singleton] at hc; subst hc; rfl)
      | simp at hc

theorem addNoteImagesLoop_noSubmit (ctx : Ctx) (i : Nat)
    (mf : List String) (cmap : List (String × String)) :
    ∀ (imgs : List ImageL) (fields : List (String × String)) (ctr : Nat),
      ∀ c ∈ (addNoteImagesLoop ctx i mf cmap imgs fields ctr).1,
        isSubmit c = false := by
  intro imgs
  induction imgs with
  | nil => intro fields ctr c hc; simp [addNoteImagesLoop] at hc
  | cons img rest ih =>
      intro fields ctr c hc
      unfold addNoteImagesLoop at hc
      rcases hst : (addNoteImageStep ctx i mf cmap img fields ctr).2.2
        with e | ⟨fields2, ctr2⟩ <;> simp only [hst] at hc
      · exact addNoteImageStep_noSubmit ctx i mf cmap img fields ctr c hc
      · rcases List.mem_append.mp hc with hc1 | hc2
        · exact addNoteImageStep_noSubmit ctx i mf cmap img fields ctr c hc1
        · exact ih fields2 ctr2 c hc2

theorem addNotesProcessNote_noSubmit (ctx : Ctx) (i : Nat)
    (note : NoteInputL) (nd nm : String) (mf : List String)
    (cmap : List (String × String)) (ctr : Nat) :
    ∀ c ∈ (addNotesProcessNote ctx i note nd nm mf cmap ctr).1,
      isSubmit c = false := by
  intro c hc
  unfold addNotesProcessNote at hc
  cases hv : normalize_and_validate_note_fields note.fields mf with
  | error e => rw [hv] at hc; simp at hc
  | ok fields0 =>
      rw [hv] at hc
      simp only [] at hc
      have hsplit : ∀ {l1 l2 : List RemoteCall}, c ∈ l1 ++ l2 →
          c ∈ l1 ∨ c ∈ l2 := fun h => List.mem_append.mp h
      rcases hfin : (addNoteImagesLoop ctx i mf cmap note.images
          (process_data_urls_in_fields ctx i
            (applySourcesAutoLink ctx fields0)).1 ctr).2.2 with e | ok2
      all_goals
        rw [hfin] at hc
      all_goals
        rcases hsplit hc with hc1 | hc2
      · exact process_data_urls_noSubmit ctx i _ c hc1
      · exact addNoteImagesLoop_noSubmit ctx i mf cmap _ _ _ c hc2
      · exact process_data_urls_noSubmit ctx i _ c hc1
      · exact addNoteImagesLoop_noSubmit ctx i mf cmap _ _ _ c hc2

theorem ensureModelContext_noSubmit (ctx : Ctx)
    (cache : List (String × List String)) (m : String) :
    ∀ c ∈ (ensureModelContext ctx cache m).1, isSubmit c = false := by
  intro c hc
  unfold ensureModelContext at hc
  cases hl : cache.lookup m with
  | some flds => rw [hl] at hc; simp at hc
  | none =>
      rw [hl] at hc
      cases hm : ctx.modelFields m with
      | error e =>
          rw [hm] at hc
          simp only [List.mem_singleton] at hc
          subst hc; rfl
      | ok flds =>
          rw [hm] at hc
          simp only [List.mem_singleton] at hc
          subst hc; rfl

theorem addNotesLoop_noSubmit (ctx : Ctx) (deck model : String) :
    ∀ (notes : List NoteInputL) (idx : Nat)
      (cache : List (String × List String)) (ctr : Nat),
      ∀ c ∈ (addNotesLoop ctx deck model notes idx cache ctr).1,
        isSubmit c = false := by
  intro notes
  induction notes with
  | nil => intro idx cache ctr c hc; simp [addNotesLoop] at hc
  | cons note rest ih =>
      intro idx cache ctr c hc
      unfold addNotesLoop at hc
      simp only [] at hc
      rcases hmc : (ensureModelContext ctx cache
          (if optTruthy note.model then note.model.getD "" else model)).2
        with e | ⟨mf, cmap, cache2⟩ <;> rw [hmc] at hc
      · exact ensureModelContext_noSubmit ctx cache _ c hc
      · simp only [] at hc
        rcases hpn : (addNotesProcessNote ctx idx note
            (if optTruthy note.deck then note.deck.getD "" else deck)
            (if optTruthy note.model then note.model.getD "" else model)
            mf cmap ctr).2.2 with e | ⟨payload, ctr2⟩ <;> rw [hpn] at hc
        · simp only [List.mem_append] at hc
          rcases hc with hc1 | hc2
          · exact ensureModelContext_noSubmit ctx cache _ c hc1
          · exact addNotesProcessNote_noSubmit ctx idx note _ _ mf cmap ctr
              c hc2
        · simp only [List.mem_append] at hc
          rcases hc with (hc1 | hc2) | hc3
          · exact ensureModelContext_noSubmit ctx cache _ c hc1
          · exact addNotesProcessNote_noSubmit ctx idx note _ _ mf cmap ctr
              c hc2
          · exact ih (idx + 1) cache2 ctr2 c hc3

theorem addNotesLoop_error_of_invalid (ctx : Ctx) (deck model : String) :
    ∀ (notes : List NoteInputL) (idx : Nat)
      (cache : List (String × List String)) (ctr : Nat),
      cacheOK ctx cache →
      (∃ note ∈ notes, ∃ flds,
        ctx.modelFields (effModel note model) = .ok flds ∧
        ∃ e, normalize_and_validate_note_fields note.fields flds = .error e) →
      exceptIsError (addNotesLoop ctx deck model notes idx cache ctr).2.2 =
        true := by
  intro notes
  induction notes with
  | nil =>
      intro idx cache ctr hcache hex
      obtain ⟨note, hmem, -⟩ := hex
      simp at hmem
  | cons note rest ih =>
      intro idx cache ctr hcache hex
      unfold addNotesLoop
      simp only []
      rcases hmc : (ensureModelContext ctx cache
          (if optTruthy note.model then note.model.getD "" else model)).2
        with e | ⟨mf, cmap, cache2⟩
      · rfl
      · simp only []
        have hctxok := ensureModelContext_ok ctx cache _ hcache mf cmap
          cache2 hmc
        rcases hpn : (addNotesProcessNote ctx idx note
            (if optTruthy note.deck then note.deck.getD "" else deck)
            (if optTruthy note.model then note.model.getD "" else model)
            mf cmap ctr).2.2 with e | ⟨payload, ctr2⟩
        · rfl
        · simp only []
          have hvalid : ∃ fields0,
              normalize_and_validate_note_fields note.fields mf =
                .ok fields0 := by
            by_contra hno
            push_neg at hno
            rcases hv : normalize_and_validate_note_fields note.fields mf
              with e2 | f0
            · unfold addNotesProcessNote at hpn
              rw [hv] at hpn
              simp at hpn
            · exact absurd hv (hno f0)
          obtain ⟨note2, hmem, flds2, hflds2, e2, hval2⟩ := hex
          rcases List.mem_cons.mp hmem with rfl | hmem2
          · -- the failing note is this one: contradiction with success
            obtain ⟨fields0, hv0⟩ := hvalid
            have : mf = flds2 := by
              have h1 := hctxok.1
              rw [show effModel note2 model =
                (if optTruthy note2.model then note2.model.getD "" else model)
                from rfl] at hflds2
              rw [h1] at hflds2
              simpa using hflds2
            rw [← this] at hval2
            rw [hv0] at hval2
            exact Except.noConfusion hval2
          · have := ih (idx + 1) cache2 ctr2 hctxok.2
              ⟨note2, hmem2, flds2, hflds2, e2, hval2⟩
            rcases hrec : (addNotesLoop ctx deck model rest (idx + 1) cache2
                ctr2).2.2 with e3 | ok3
            · rfl
            · rw [hrec] at this
              simp [exceptIsError] at this

/-- C5 (as stated) is false: a concrete batch whose second draft has only the
unknown field `Bogus`.  The operation does raise the validation error for
that draft, but by that time the deck has been created, the schema has been
fetched, and the first draft's image has been stored — all remote calls the
claim says cannot precede the error. -/
def c5Ctx : Ctx where
  modelFields := fun _ => .ok ["Front", "Back"]
  createDeck := fun _ => Option.none
  store := fun _ _ => Option.none
  fetch := fun _ _ => .error "network unavailable"
  mutate := fun _ => Option.none
  addNotesResp := fun _ => .ok []
  notesInfoResp := fun _ => .ok []
  sha1hex := fun _ => "cafe"
  freshName := fun _ => "generated"
  autoLink := fun s => s

/-- The two-draft batch of the counterexample. -/
def c5Args : AddNotesArgsL where
  deck := "D"
  model := "M"
  notes :=
    [{fields := [("Front", "Q")],
      images := [{image_base64 := some "aGVsbG8=", target_field := "Back"}]},
     {fields := [("Bogus", "x")]}]

/-- Counterexample to C5: at `c5Args` the validation error for draft 1 is
raised, yet the trace up to the error already contains the deck creation, the
schema fetch, and the media store for draft 0's image. -/
theorem C5_counterexample_calls_before_validation_error :
    (add_notes c5Ctx c5Args).2 =
      .error (nvErrorMessage [("Bogus", "x")] ["Front", "Back"]) ∧
    RemoteCall.createDeck "D" ∈ (add_notes c5Ctx c5Args).1 ∧
    RemoteCall.modelFieldNames "M" ∈ (add_notes c5Ctx c5Args).1 ∧
    RemoteCall.storeMediaFile "generated.jpg" "aGVsbG8=" ∈
      (add_notes c5Ctx c5Args).1 :=
  ⟨by rfl, by decide, by decide, by decide⟩

/-- C5 amended: a batch containing a draft that fails field validation
(unknown fields with no match, or an empty primary field) raises the
validation error before the single `addNotes` submit call is issued; deck
creation, schema fetches and media stores for earlier drafts may already
have happened. -/
theorem C5_amended_validation_before_submit (ctx : Ctx)
    (args : AddNotesArgsL)
    (h : ∃ note ∈ args.notes, ∃ flds,
      ctx.modelFields (effModel note args.model) = .ok flds ∧
      ∃ e, normalize_and_validate_note_fields note.fields flds = .error e) :
    exceptIsError (add_notes ctx args).2 = true ∧
    ∀ p, RemoteCall.addNotesCall p ∉ (add_notes ctx args).1 := by
  unfold add_notes
  simp only []
  rcases hdc : (createDecksLoop ctx (dedupStrings (args.deck ::
      args.notes.filterMap fun n =>
        if optTruthy n.deck then some (n.deck.getD "")
        else Option.none))).2 with e | u
  · rw [hdc]
    refine ⟨rfl, ?_⟩
    intro p hp
    have := createDecksLoop_noSubmit ctx _ _ hp
    simp [isSubmit] at this
  · rw [hdc]
    simp only []
    have herr := addNotesLoop_error_of_invalid ctx args.deck args.model
      args.notes 0 [] 0 (by intro p hp; simp at hp) h
    rcases hlp : (addNotesLoop ctx args.deck args.model args.notes 0 [] 0).2.2
      with e | payloads
    · refine ⟨rfl, ?_⟩
      intro p hp
      rcases List.mem_append.mp hp with hp1 | hp2
      · have := createDecksLoop_noSubmit ctx _ _ hp1
        simp [isSubmit] at this
      · have := addNotesLoop_noSubmit ctx args.deck args.model args.notes
          0 [] 0 _ hp2
        simp [isSubmit] at this
    · rw [hlp] at herr
      simp [exceptIsError] at herr

/-- Closed-instance witness for `C5_amended_validation_before_submit`. -/
theorem C5_amended_validation_before_submit_witness :
    exceptIsError (add_notes c5Ctx c5Args).2 = true ∧
    ∀ p, RemoteCall.addNotesCall p ∉ (add_notes c5Ctx c5Args).1 :=
  C5_amended_validation_before_submit c5Ctx c5Args
    ⟨{fields := [("Bogus", "x")]}, by decide,
     ["Front", "Back"], by rfl,
     nvErrorMessage [("Bogus", "x")] ["Front", "Back"], by rfl⟩

/-! ## The `update_notes` tool (anki_mcp/tools/notes.py, lines 597-819) -/

/-- Classifier for the four note-mutating AnkiConnect actions of
`update_notes` (`updateNoteFields`, `addTags`, `removeTags`, `changeDeck`). -/
def isMutationCall : RemoteCall → Bool
  | .updateNoteFields _ _ => true
  | .addTags _ _ => true
  | .removeTags _ _ => true
  | .changeDeck _ _ => true
  | _ => false

/-- Classifier for `modelFieldNames` schema fetches. -/
def isModelFetch : RemoteCall → Bool
  | .modelFieldNames _ => true
  | _ => false

/-- Classifier for `storeMediaFile` calls. -/
def isStoreOnly : RemoteCall → Bool
  | .storeMediaFile _ _ => true
  | _ => false

/-- Error payload of an `update_notes` per-note detail record: either the
`unknown_fields` structured error (line 673) or a stringified exception
(line 795). -/
inductive UpdErr where
  | unknownFields (fields : List String)
  | exc (msg : String)
deriving DecidableEq

/-- A per-note detail record of `update_notes`.  Optional dict keys are
modelled as `Option` fields (absent = `none`); the `logs` key is modelled as
a plain list (absent = `[]`). -/
structure UpdateDetail where
  index : Nat
  noteId : Int
  status : String := ""
  model : Option String := Option.none
  deck : Option String := Option.none
  error : Option UpdErr := Option.none
  addedTags : Option (List String) := Option.none
  removedTags : Option (List String) := Option.none
  deckChangedTo : Option String := Option.none
  updatedFields : Option (List String) := Option.none
  logs : List LogEntry := []
deriving DecidableEq

/-- Effective-schema resolution of `update_notes` (lines 629-645).  For a
non-empty `model_name` the field list comes from the cache, else from the
note's own field keys, else from a `modelFieldNames` fetch (whose failure
propagates); `canonical_field_map` is served by
`canonical_field_cache.setdefault`.  For an empty `model_name` the note's
own field keys are the schema and a fresh lowercase map is used (the
`setdefault` on line 645 only seeds the cache). -/
def updEffectiveSchema (ctx : Ctx) (info : NoteInfoL) (model_name : String)
    (mfCache : List (String × List String))
    (cfCache : List (String × List (String × String))) :
    List RemoteCall ×
      Except String (List String × List (String × String) ×
        List (String × List String) ×
        List (String × List (String × String))) :=
  if model_name ≠ "" then
    let fetched : List RemoteCall ×
        Except String (List String × List (String × List String)) :=
      match mfCache.lookup model_name with
      | some mf => ([], .ok (mf, mfCache))
      | Option.none =>
          if info.fields ≠ [] then
            ([], .ok (info.fields.map Prod.fst,
              mfCache ++ [(model_name, info.fields.map Prod.fst)]))
          else
            match ctx.modelFields model_name with
            | .error e => ([.modelFieldNames model_name], .error e)
            | .ok mf => ([.modelFieldNames model_name],
                .ok (mf, mfCache ++ [(model_name, mf)]))
    match fetched.2 with
    | .error e => (fetched.1, .error e)
    | .ok (mf, mfCache2) =>
        match cfCache.lookup model_name with
        | some cm => (fetched.1, .ok (mf, cm, mfCache2, cfCache))
        | Option.none =>
            (fetched.1, .ok (mf, lowerKeyMap mf, mfCache2,
              cfCache ++ [(model_name, lowerKeyMap mf)]))
  else
    let mf := if info.fields ≠ [] then info.fields.map Prod.fst else []
    let cm := lowerKeyMap mf
    let cfCache2 :=
      match cfCache.lookup model_name with
      | some _ => cfCache
      | Option.none => cfCache ++ [(model_name, cm)]
    ([], .ok (mf, cm, mfCache, cfCache2))

/-- One iteration of the payload-building loop of `update_notes` (lines
688-692): a raw key whose lowercased form maps to a non-empty canonical
field contributes `normalized.get(canonical, value)` to `fields_payload`
and appends the canonical name to `updated_fields`. -/
def updPayloadStep (cm normalized : List (String × String))
    (acc : List (String × String) × List String) (kv : String × String) :
    List (String × String) × List String :=
  match cm.lookup (lowerStr kv.1) with
  | some c =>
      if c ≠ "" then
        (pyDictSet acc.1 c ((normalized.lookup c).getD kv.2), acc.2 ++ [c])
      else acc
  | Option.none => acc

/-- Outcome of the field-patch phase of `update_notes` (lines 650-692):
either the terminal `unknown_fields` error, or the payload to proceed with.
The `matched_count == 0` branch (lines 681-686) marks the detail status
`"noop"`; since the final status read is `detail.get("status", "noop")`
(line 814), that pre-mark coincides with the default and only the warning
log is observable. -/
inductive FieldPhase where
  | terminalError (unknown : List String)
  | proceed (payload : List (String × String)) (updated : List String)
      (logs : List LogEntry)
deriving DecidableEq

/-- Field-patch phase of `update_notes` (lines 650-692).  `update.fields`
models the raw patch after the scalar-coercion loop (lines 651-665). -/
def updFieldsPhase (index : Nat) (update : NoteUpdateL)
    (mf : List String) (cm : List (String × String)) : FieldPhase :=
  let raw_fields := update.fields.getD []
  if raw_fields ≠ [] then
    let r := normalize_fields_for_model raw_fields mf
    if r.2.2 ≠ [] then .terminalError r.2.2
    else if r.2.1 = 0 then
      .proceed [] [] [.warn index "no_matching_fields"]
    else
      let fin := raw_fields.foldl (updPayloadStep cm r.1) ([], [])
      .proceed fin.1 fin.2 []
  else .proceed [] [] []

/-- One iteration of the images loop of `update_notes` (lines 698-752).
Unlike `add_notes`, an unknown target field only logs a
`unknown_target_field` warning and skips the image (lines 729-737); the
previous field text falls back to the note's own stored field value
(lines 739-742).  Returns calls, logs, the new payload, the appended
`updated_fields` names and the fresh-name counter. -/
def updNoteImageStep (ctx : Ctx) (index : Nat)
    (cm : List (String × String)) (infoFields : List (String × String))
    (img : ImageL) (payload : List (String × String)) (ctr : Nat) :
    List RemoteCall × List LogEntry × List (String × String) ×
      List String × Nat :=
  let resolved : Option (String × Option String) × List LogEntry :=
    if optTruthy img.image_base64 then
      match sanitize_image_payload (img.image_base64.getD "") with
      | .error e =>
          (Option.none, [.warn index ("invalid_image_base64: " ++ e)])
      | .ok (data_b64, ext_hint) => (some (data_b64, ext_hint), [])
    else if optTruthy img.image_url then
      match fetch_image_as_base64 ctx (img.image_url.getD "")
          img.max_side with
      | .error e =>
          (Option.none, [.warn index ("fetch_image_failed: " ++ e)])
      | .ok data_b64 => (some (data_b64, Option.none), [])
    else (Option.none, [.warn index "no_image_provided"])
  match resolved with
  | (Option.none, logs0) => ([], logs0, payload, [], ctr)
  | (some (data_b64, ext_hint), _) =>
      let named :=
        if optTruthy img.filename then (img.filename.getD "", ctr)
        else
          (ctx.freshName ctr ++ "." ++
            (match ext_hint with
             | some e => if e ≠ "" then e else "jpg"
             | Option.none => "jpg"), ctr + 1)
      let canonical_target := (cm.lookup (lowerStr img.target_field)).getD ""
      if canonical_target = "" then
        ([], [.warnField index "unknown_target_field" img.target_field],
         payload, [], named.2)
      else
        let previous := (payload.lookup canonical_target).getD
          (pyDictGetD infoFields canonical_target "")
        let stepRes : List (String × String) × List LogEntry × List String :=
          match ctx.store named.1 data_b64 with
          | some err =>
              (payload, [.warn index ("store_media_failed: " ++ err)], [])
          | Option.none =>
              (pyDictSet payload canonical_target
                (ensure_img_tag previous named.1), [], [canonical_target])
        ([.storeMediaFile named.1 data_b64], stepRes.2.1, stepRes.1,
         stepRes.2.2, named.2)

/-- The images loop of `update_notes` (lines 698-752), threading the
payload and the fresh-name counter. -/
def updImagesLoop (ctx : Ctx) (index : Nat) (cm : List (String × String))
    (infoFields : List (String × String)) :
    List ImageL → List (String × String) → Nat →
    List RemoteCall × List LogEntry × List (String × String) ×
      List String × Nat
  | [], payload, ctr => ([], [], payload, [], ctr)
  | img :: rest, payload, ctr =>
      let st := updNoteImageStep ctx index cm infoFields img payload ctr
      let r := updImagesLoop ctx index cm infoFields rest st.2.2.1 st.2.2.2.2
      (st.1 ++ r.1, st.2.1 ++ r.2.1, r.2.2.1, st.2.2.2.1 ++ r.2.2.2.1,
       r.2.2.2.2)

/-- Accumulated observable state of the mutation phase of `update_notes`
(lines 754-792): issued calls, deck-change warning logs, the
`operations_performed` flag and the detail keys set by successful steps. -/
structure MutState where
  calls : List RemoteCall := []
  logs : List LogEntry := []
  ops : Bool := false
  addedTags : Option (List String) := Option.none
  removedTags : Option (List String) := Option.none
  deckChangedTo : Option String := Option.none
deriving DecidableEq

/-- The `updateNoteFields` step (lines 757-762); `some e` aborts the
phase with exception text `e`. -/
def updStepFields (ctx : Ctx) (id : Int) (payload : List (String × String))
    (st : MutState) : MutState × Option String :=
  if payload ≠ [] then
    let c := RemoteCall.updateNoteFields id payload
    match ctx.mutate c with
    | some e => ({st with calls := st.calls ++ [c]}, some e)
    | Option.none =>
        ({st with calls := st.calls ++ [c], ops := true}, Option.none)
  else (st, Option.none)

/-- The `addTags` step (lines 764-770). -/
def updStepAddTags (ctx : Ctx) (update : NoteUpdateL) (st : MutState) :
    MutState × Option String :=
  if update.add_tags ≠ [] then
    let c := RemoteCall.addTags [update.note_id]
      (pyJoin " " update.add_tags)
    match ctx.mutate c with
    | some e => ({st with calls := st.calls ++ [c]}, some e)
    | Option.none =>
        ({st with
            calls := st.calls ++ [c]
            addedTags := some update.add_tags
            ops := true}, Option.none)
  else (st, Option.none)

/-- The `removeTags` step (lines 772-779). -/
def updStepRemoveTags (ctx : Ctx) (update : NoteUpdateL) (st : MutState) :
    MutState × Option String :=
  if update.remove_tags ≠ [] then
    let c := RemoteCall.removeTags [update.note_id]
      (pyJoin " " update.remove_tags)
    match ctx.mutate c with
    | some e => ({st with calls := st.calls ++ [c]}, some e)
    | Option.none =>
        ({st with
            calls := st.calls ++ [c]
            removedTags := some update.remove_tags
            ops := true}, Option.none)
  else (st, Option.none)

/-- The `changeDeck` step (lines 781-792): only when a non-empty target
deck differs from the note's current deck; without cards it merely warns. -/
def updStepDeck (ctx : Ctx) (index : Nat) (update : NoteUpdateL)
    (deck_name : String) (cards : List Int) (st : MutState) :
    MutState × Option String :=
  if optTruthy update.deck = true ∧ update.deck.getD "" ≠ deck_name then
    if cards ≠ [] then
      let c := RemoteCall.changeDeck cards (update.deck.getD "")
      match ctx.mutate c with
      | some e => ({st with calls := st.calls ++ [c]}, some e)
      | Option.none =>
          ({st with
              calls := st.calls ++ [c]
              deckChangedTo := some (update.deck.getD "")
              ops := true}, Option.none)
    else
      ({st with logs := st.logs ++ [.warn index "no_cards_for_deck_change"]},
       Option.none)
  else (st, Option.none)

/-- The guarded mutation phase of `update_notes` (lines 754-792): the four
steps run in order inside one `try`; the first exception aborts the rest. -/
def updMutationPhase (ctx : Ctx) (index : Nat) (update : NoteUpdateL)
    (deck_name : String) (cards : List Int)
    (payload : List (String × String)) : MutState × Option String :=
  let s1 := updStepFields ctx update.note_id payload {}
  match s1.2 with
  | some e => (s1.1, some e)
  | Option.none =>
      let s2 := updStepAddTags ctx update s1.1
      match s2.2 with
      | some e => (s2.1, some e)
      | Option.none =>
          let s3 := updStepRemoveTags ctx update s2.1
          match s3.2 with
          | some e => (s3.1, some e)
          | Option.none => updStepDeck ctx index update deck_name cards s3.1

/-- Post-schema processing of one `update_notes` note (lines 647-817):
data-URL expansion over the payload, the images loop, the mutation phase
and the final detail assembly.  The final status is `"ok"` iff an operation
was performed, else `detail.get("status", "noop")`, which is `"noop"` on
every path that reaches line 814. -/
def updProceed (ctx : Ctx) (index : Nat) (update : NoteUpdateL)
    (info : NoteInfoL) (model_name deck_name : String)
    (cm : List (String × String)) (payload0 : List (String × String))
    (uf0 : List String) (logs0 : List LogEntry) (ctr : Nat) :
    List RemoteCall × UpdateDetail × Bool × Nat :=
  let pd := process_data_urls_in_fields ctx index payload0
  let il := updImagesLoop ctx index cm info.fields update.images pd.1 ctr
  let mres := updMutationPhase ctx index update deck_name info.cards
    il.2.2.1
  let all_logs := logs0 ++ pd.2.1 ++ il.2.1 ++ mres.1.logs
  let uf := uf0 ++ il.2.2.2.1
  let calls := pd.2.2 ++ il.1 ++ mres.1.calls
  match mres.2 with
  | some e =>
      (calls,
       {index := index
        noteId := update.note_id
        status := "error"
        model := some model_name
        deck := some deck_name
        error := some (.exc e)
        addedTags := mres.1.addedTags
        removedTags := mres.1.removedTags
        deckChangedTo := mres.1.deckChangedTo
        updatedFields :=
          if uf ≠ [] then some (pySort (dedupStrings uf)) else Option.none
        logs := all_logs}, false, il.2.2.2.2)
  | Option.none =>
      (calls,
       {index := index
        noteId := update.note_id
        status := if mres.1.ops then "ok" else "noop"
        model := some model_name
        deck := some deck_name
        addedTags := mres.1.addedTags
        removedTags := mres.1.removedTags
        deckChangedTo := mres.1.deckChangedTo
        updatedFields :=
          if uf ≠ [] then some (pySort (dedupStrings uf)) else Option.none
        logs := all_logs}, mres.1.ops, il.2.2.2.2)

/-- Processing of one note of an `update_notes` batch (the body of the
`for index, update` loop, lines 613-817).  Returns the issued calls and
either the propagated schema-fetch exception or the detail record, the
updated/skipped flag, the two caches and the fresh-name counter. -/
def processNoteUpdate (ctx : Ctx) (index : Nat) (update : NoteUpdateL)
    (infoOpt : Option NoteInfoL)
    (mfCache : List (String × List String))
    (cfCache : List (String × List (String × String))) (ctr : Nat) :
    List RemoteCall ×
      Except String (UpdateDetail × Bool × List (String × List String) ×
        List (String × List (String × String)) × Nat) :=
  match infoOpt with
  | Option.none =>
      ([], .ok ({index := index
                 noteId := update.note_id
                 status := "not_found"}, false, mfCache, cfCache, ctr))
  | some info =>
      let model_name :=
        if optTruthy info.model_name then info.model_name.getD "" else ""
      let deck_name :=
        if optTruthy info.deck_name then info.deck_name.getD "" else ""
      let sc := updEffectiveSchema ctx info model_name mfCache cfCache
      match sc.2 with
      | .error e => (sc.1, .error e)
      | .ok (mf, cm, mfCache2, cfCache2) =>
          match updFieldsPhase index update mf cm with
          | .terminalError unknown =>
              (sc.1,
               .ok ({index := index
                     noteId := update.note_id
                     status := "error"
                     model := some model_name
                     deck := some deck_name
                     error := some (.unknownFields unknown)}, false,
                mfCache2, cfCache2, ctr))
          | .proceed payload0 uf0 logs0 =>
              let r := updProceed ctx index update info model_name
                deck_name cm payload0 uf0 logs0 ctr
              (sc.1 ++ r.1,
               .ok (r.2.1, r.2.2.1, mfCache2, cfCache2, r.2.2.2))

/-- Python `info_by_id[k] = v` over `int` keys (line 604). -/
def pyDictSetI (d : List (Int × Option NoteInfoL)) (k : Int)
    (v : Option NoteInfoL) : List (Int × Option NoteInfoL) :=
  match d with
  | [] => [(k, v)]
  | (k1, v1) :: rest =>
      if k1 = k then (k, v) :: rest else (k1, v1) :: pyDictSetI rest k v

/-- The note loop of `update_notes` (lines 613-817), threading the caches
and accumulating the updated/skipped counters and detail records. -/
def updateNotesLoop (ctx : Ctx) (infoMap : List (Int × Option NoteInfoL)) :
    List NoteUpdateL → Nat → List (String × List String) →
      List (String × List (String × String)) → Nat →
      List RemoteCall × Except String (Nat × Nat × List UpdateDetail)
  | [], _, _, _, _ => ([], .ok (0, 0, []))
  | u :: rest, idx, mfc, cfc, ctr =>
      let pr := processNoteUpdate ctx idx u
        ((infoMap.lookup u.note_id).getD Option.none) mfc cfc ctr
      match pr.2 with
      | .error e => (pr.1, .error e)
      | .ok (d, isUpd, mfc2, cfc2, ctr2) =>
          let r := updateNotesLoop ctx infoMap rest (idx + 1) mfc2 cfc2 ctr2
          match r.2 with
          | .error e => (pr.1 ++ r.1, .error e)
          | .ok (upd, skip, ds) =>
              (pr.1 ++ r.1,
               .ok ((if isUpd then 1 else 0) + upd,
                    (if isUpd then 0 else 1) + skip, d :: ds))

/-- Arguments of `anki.update_notes`. -/
structure UpdateNotesArgsL where
  notes : List NoteUpdateL
deriving DecidableEq

/-- Result of `anki.update_notes`. -/
structure UpdateNotesResultL where
  updated : Nat
  skipped : Nat
  details : List UpdateDetail
deriving DecidableEq

/-- The `update_notes` orchestrator (lines 597-819): one `notesInfo`
fetch, the id-keyed info dict (last write wins on duplicate ids), then the
per-note loop. -/
def update_notes (ctx : Ctx) (args : UpdateNotesArgsL) :
    List RemoteCall × Except String UpdateNotesResultL :=
  let note_ids := args.notes.map (·.note_id)
  match ctx.notesInfoResp note_ids with
  | .error e => ([.notesInfo note_ids], .error e)
  | .ok infos =>
      let infoMap := (note_ids.zip infos).foldl
        (fun d p => pyDictSetI d p.1 p.2) []
      let r := updateNotesLoop ctx infoMap args.notes 0 [] [] 0
      ([.notesInfo note_ids] ++ r.1,
       match r.2 with
       | .error e => .error e
       | .ok (upd, skip, ds) => .ok ⟨upd, skip, ds⟩)

theorem pyDictSet_ne_nil (d : List (String × String)) (k v : String) :
    pyDictSet d k v ≠ [] := by
  cases d with
  | nil => simp [pyDictSet]
  | cons kv rest =>
      obtain ⟨k1, v1⟩ := kv
      unfold pyDictSet
      split <;> simp

theorem updPayloadStep_fst_ne_nil (cm normalized : List (String × String))
    (acc : List (String × String) × List String) (kv : String × String)
    (h : acc.1 ≠ []) : (updPayloadStep cm normalized acc kv).1 ≠ [] := by
  unfold updPayloadStep
  split
  · split
    · exact pyDictSet_ne_nil _ _ _
    · exact h
  · exact h

theorem updPayloadFold_ne_nil (cm normalized : List (String × String)) :
    ∀ (raw : List (String × String))
      (acc : List (String × String) × List String),
      ((∃ kv ∈ raw, ∃ c, cm.lookup (lowerStr kv.1) = some c ∧ c ≠ "") ∨
        acc.1 ≠ []) →
      (raw.foldl (updPayloadStep cm normalized) acc).1 ≠ [] := by
  intro raw
  induction raw with
  | nil =>
      intro acc h
      rcases h with ⟨kv, hmem, -⟩ | h
      · simp at hmem
      · simpa using h
  | cons kv rest ih =>
      intro acc h
      rw [List.foldl_cons]
      apply ih
      rcases h with ⟨kv2, hmem, c, hlk, hc⟩ | h
      · rcases List.mem_cons.mp hmem with rfl | hmem2
        · right
          unfold updPayloadStep
          rw [hlk]
          simp only [hc]
          simp only [if_pos hc]
          exact pyDictSet_ne_nil _ _ _
        · exact Or.inl ⟨kv2, hmem2, c, hlk, hc⟩
      · exact Or.inr (updPayloadStep_fst_ne_nil cm normalized acc kv h)

theorem process_data_urls_fst_ne_nil (ctx : Ctx) (i : Nat)
    (l : List (String × String)) (h : l ≠ []) :
    (process_data_urls_in_fields ctx i l).1 ≠ [] := by
  cases l with
  | nil => exact absurd rfl h
  | cons kv rest =>
      obtain ⟨k, v⟩ := kv
      simp [process_data_urls_in_fields]

theorem handleDataUrlMatch_store (ctx : Ctx) (i : Nat) (k du : String)
    (sub : Option String) :
    ∀ c ∈ (handleDataUrlMatch ctx i k du sub).2.2, isStoreOnly c = true := by
  intro c hc
  unfold handleDataUrlMatch at hc
  all_goals try split at hc
  all_goals try split at hc
  all_goals try split at hc
  all_goals try split at hc
  all_goals try split at hc
  all_goals try split at hc
  all_goals
    first
      | (subst hc; rfl)
      | (simp only [List.mem_singleton] at hc; subst hc; rfl)
      | simp at hc

theorem scanDataUrlsAux_store (ctx : Ctx) (i : Nat) (k : String) :
    ∀ (fuel : Nat) (s : List Char),
      ∀ c ∈ (scanDataUrlsAux ctx i k fuel s).2.2.2,
        isStoreOnly c = true := by
  intro fuel
  induction fuel with
  | zero => intro s c hc; simp [scanDataUrlsAux] at hc
  | succ n ih =>
      intro s c hc
      cases s with
      | nil => simp [scanDataUrlsAux] at hc
      | cons ch rest =>
          unfold scanDataUrlsAux at hc
          cases hm : matchInlineAt (ch :: rest) with
          | some t =>
              obtain ⟨sub, b64, len⟩ := t
              rw [hm] at hc
              simp only [] at hc
              cases hh : (handleDataUrlMatch ctx i k
                  (String.mk ((ch :: rest).take len)) (some sub)).1 with
              | some fn =>
                  rw [hh] at hc
                  simp only [List.mem_append] at hc
                  rcases hc with hc1 | hc2
                  · exact handleDataUrlMatch_store ctx i k _ _ c hc1
                  · exact ih _ c hc2
              | none =>
                  rw [hh] at hc
                  simp only [List.mem_append] at hc
                  rcases hc with hc1 | hc2
                  · exact handleDataUrlMatch_store ctx i k _ _ c hc1
                  · exact ih _ c hc2
          | none =>
              rw [hm] at hc
              exact ih rest c hc

theorem processFieldValue_store (ctx : Ctx) (i : Nat) (k v : String) :
    ∀ c ∈ (processFieldValue ctx i k v).2.2, isStoreOnly c = true := by
  intro c hc
  unfold processFieldValue at hc
  by_cases hinl : hasInline v.data
  · rw [if_pos hinl] at hc
    exact scanDataUrlsAux_store ctx i k _ _ c hc
  · rw [if_neg hinl] at hc
    cases hm : matchDataUrl (pyStrip v) with
    | some t =>
        rw [hm] at hc
        simp only [] at hc
        rcases ht : t with ⟨sub, du⟩
        rw [ht] at hc
        cases hh : (handleDataUrlMatch ctx i k (pyStrip v) (some sub)).1 with
        | some fn => rw [hh] at hc; exact handleDataUrlMatch_store _ _ _ _ _ c hc
        | none => rw [hh] at hc; exact handleDataUrlMatch_store _ _ _ _ _ c hc
    | none => rw [hm] at hc; simp at hc

theorem process_data_urls_store (ctx : Ctx) (i : Nat) :
    ∀ (l : List (String × String)),
      ∀ c ∈ (process_data_urls_in_fields ctx i l).2.2,
        isStoreOnly c = true := by
  intro l
  induction l with
  | nil => intro c hc; simp [process_data_urls_in_fields] at hc
  | cons kv rest ih =>
      obtain ⟨k, v⟩ := kv
      intro c hc
      unfold process_data_urls_in_fields at hc
      simp only [List.mem_append] at hc
      rcases hc with hc1 | hc2
      · exact processFieldValue_store ctx i k v c hc1
      · exact ih c hc2

theorem updNoteImageStep_store (ctx : Ctx) (i : Nat)
    (cm : List (String × String)) (infoFields : List (String × String))
    (img : ImageL) (payload : List (String × String)) (ctr : Nat) :
    ∀ c ∈ (updNoteImageStep ctx i cm infoFields img payload ctr).1,
      isStoreOnly c = true := by
  intro c hc
  unfold updNoteImageStep at hc
  all_goals try split at hc
  all_goals try simp only [] at hc
  all_goals try split at hc
  all_goals try simp only [] at hc
  all_goals try split at hc
  all_goals try simp only [] at hc
  all_goals try split at hc
  all_goals try simp only [] at hc
  all_goals
    first
      | (subst hc; rfl)
      | (simp only [List.mem_singleton] at hc; subst hc; rfl)
      | simp at hc

theorem updImagesLoop_store (ctx : Ctx) (i : Nat)
    (cm : List (String × String)) (infoFields : List (String × String)) :
    ∀ (imgs : List ImageL) (payload : List (String × String)) (ctr : Nat),
      ∀ c ∈ (updImagesLoop ctx i cm infoFields imgs payload ctr).1,
        isStoreOnly c = true := by
  intro imgs
  induction imgs with
  | nil => intro payload ctr c hc; simp [updImagesLoop] at hc
  | cons img rest ih =>
      intro payload ctr c hc
      unfold updImagesLoop at hc
      simp only [List.mem_append] at hc
      rcases hc with hc1 | hc2
      · exact updNoteImageStep_store ctx i cm infoFields img payload ctr
          c hc1
      · exact ih _ _ c hc2

theorem updEffectiveSchema_fetch (ctx : Ctx) (info : NoteInfoL)
    (model_name : String) (mfCache : List (String × List String))
    (cfCache : List (String × List (String × String))) :
    ∀ c ∈ (updEffectiveSchema ctx info model_name mfCache cfCache).1,
      isModelFetch c = true := by
  intro c hc
  unfold updEffectiveSchema at hc
  all_goals try split at hc
  all_goals try simp only [] at hc
  all_goals try split at hc
  all_goals try simp only [] at hc
  all_goals try split at hc
  all_goals try simp only [] at hc
  all_goals try split at hc
  all_goals try simp only [] at hc
  all_goals try split at hc
  all_goals try simp only [] at hc
  all_goals try split at hc
  all_goals try simp only [] at hc
  all_goals try split at hc
  all_goals try simp only [] at hc
  all_goals
    first
      | (subst hc; rfl)
      | (simp only [List.mem_singleton] at hc; subst hc; rfl)
      | simp at hc

theorem updEffectiveSchema_empty_model (ctx : Ctx) (info : NoteInfoL)
    (mfCache : List (String × List String))
    (cfCache : List (String × List (String × String)))
    (h : info.fields ≠ []) :
    ∃ cfc2, updEffectiveSchema ctx info "" mfCache cfCache =
      ([], .ok (info.fields.map Prod.fst,
        lowerKeyMap (info.fields.map Prod.fst), mfCache, cfc2)) := by
  unfold updEffectiveSchema
  rw [if_neg (by simp)]
  simp only [if_pos h]
  exact ⟨_, rfl⟩

theorem isModelFetch_false_of_store (c : RemoteCall)
    (h : isStoreOnly c = true) : isModelFetch c = false := by
  cases c <;> simp [isStoreOnly, isModelFetch] at h ⊢

theorem isModelFetch_false_of_mutation (c : RemoteCall)
    (h : isMutationCall c = true) : isModelFetch c = false := by
  cases c <;> simp [isMutationCall, isModelFetch] at h ⊢

theorem isMutationCall_false_of_fetch (c : RemoteCall)
    (h : isModelFetch c = true) : isMutationCall c = false := by
  cases c <;> simp [isMutationCall, isModelFetch] at h ⊢

theorem updStepFields_calls (ctx : Ctx) (id : Int)
    (payload : List (String × String)) (st : MutState) :
    ∀ c ∈ (updStepFields ctx id payload st).1.calls,
      c ∈ st.calls ∨ isMutationCall c = true := by
  intro c hc
  unfold updStepFields at hc
  all_goals try split at hc
  all_goals try simp only [] at hc
  all_goals try split at hc
  all_goals try simp only [] at hc
  all_goals
    first
      | (rcases List.mem_append.mp hc with h1 | h1
         · exact Or.inl h1
         · simp only [List.mem_singleton] at h1
           subst h1
           exact Or.inr rfl)
      | exact Or.inl hc

theorem updStepAddTags_calls (ctx : Ctx) (update : NoteUpdateL)
    (st : MutState) :
    ∀ c ∈ (updStepAddTags ctx update st).1.calls,
      c ∈ st.calls ∨ isMutationCall c = true := by
  intro c hc
  unfold updStepAddTags at hc
  all_goals try split at hc
  all_goals try simp only [] at hc
  all_goals try split at hc
  all_goals try simp only [] at hc
  all_goals
    first
      | (rcases List.mem_append.mp hc with h1 | h1
         · exact Or.inl h1
         · simp only [List.mem_singleton] at h1
           subst h1
           exact Or.inr rfl)
      | exact Or.inl hc

theorem updStepRemoveTags_calls (ctx : Ctx) (update : NoteUpdateL)
    (st : MutState) :
    ∀ c ∈ (updStepRemoveTags ctx update st).1.calls,
      c ∈ st.calls ∨ isMutationCall c = true := by
  intro c hc
  unfold updStepRemoveTags at hc
  all_goals try split at hc
  all_goals try simp only [] at hc
  all_goals try split at hc
  all_goals try simp only [] at hc
  all_goals
    first
      | (rcases List.mem_append.mp hc with h1 | h1
         · exact Or.inl h1
         · simp only [List.mem_singleton] at h1
           subst h1
           exact Or.inr rfl)
      | exact Or.inl hc

theorem updStepDeck_calls (ctx : Ctx) (index : Nat) (update : NoteUpdateL)
    (deck_name : String) (cards : List Int) (st : MutState) :
    ∀ c ∈ (updStepDeck ctx index update deck_name cards st).1.calls,
      c ∈ st.calls ∨ isMutationCall c = true := by
  intro c hc
  unfold updStepDeck at hc
  all_goals try split at hc
  all_goals try simp only [] at hc
  all_goals try split at hc
  all_goals try simp only [] at hc
  all_goals try split at hc
  all_goals try simp only [] at hc
  all_goals
    first
      | (rcases List.mem_append.mp hc with h1 | h1
         · exact Or.inl h1
         · simp only [List.mem_singleton] at h1
           subst h1
           exact Or.inr rfl)
      | exact Or.inl hc

theorem updMutationPhase_calls (ctx : Ctx) (index : Nat)
    (update : NoteUpdateL) (deck_name : String) (cards : List Int)
    (payload : List (String × String)) :
    ∀ c ∈ (updMutationPhase ctx index update deck_name cards
        payload).1.calls, isMutationCall c = true := by
  intro c hc
  unfold updMutationPhase at hc
  simp only [] at hc
  have base : ∀ d ∈ (MutState.calls {}), isMutationCall d = true := by
    intro d hd; simp [MutState.calls] at hd
  have h1 : ∀ d ∈ (updStepFields ctx update.note_id payload {}).1.calls,
      isMutationCall d = true := by
    intro d hd
    rcases updStepFields_calls ctx update.note_id payload {} d hd with h | h
    · exact base d h
    · exact h
  have h2 : ∀ d ∈ (updStepAddTags ctx update
      (updStepFields ctx update.note_id payload {}).1).1.calls,
      isMutationCall d = true := by
    intro d hd
    rcases updStepAddTags_calls ctx update _ d hd with h | h
    · exact h1 d h
    · exact h
  have h3 : ∀ d ∈ (updStepRemoveTags ctx update
      (updStepAddTags ctx update
        (updStepFields ctx update.note_id payload {}).1).1).1.calls,
      isMutationCall d = true := by
    intro d hd
    rcases updStepRemoveTags_calls ctx update _ d hd with h | h
    · exact h2 d h
    · exact h
  have h4 : ∀ d ∈ (updStepDeck ctx index update deck_name cards
      (updStepRemoveTags ctx update
        (updStepAddTags ctx update
          (updStepFields ctx update.note_id payload {}).1).1).1).1.calls,
      isMutationCall d = true := by
    intro d hd
    rcases updStepDeck_calls ctx index update deck_name cards _ d hd
      with h | h
    · exact h3 d h
    · exact h
  all_goals try split at hc
  all_goals try split at hc
  all_goals try split at hc
  · exact h1 c hc
  · exact h2 c hc
  · exact h3 c hc
  · exact h4 c hc

/-- Closed form of the mutation phase when no remote call raises: all four
steps run, each guarded call is issued exactly when its guard holds, and
the phase never aborts. -/
theorem updMutationPhase_mutateNone (ctx : Ctx) (index : Nat)
    (u : NoteUpdateL) (deck_name : String) (cards : List Int)
    (payload : List (String × String))
    (h : ∀ c, ctx.mutate c = Option.none) :
    updMutationPhase ctx index u deck_name cards payload =
      ({calls :=
          (if payload ≠ [] then
            [RemoteCall.updateNoteFields u.note_id payload] else []) ++
          (if u.add_tags ≠ [] then
            [RemoteCall.addTags [u.note_id] (pyJoin " " u.add_tags)]
           else []) ++
          (if u.remove_tags ≠ [] then
            [RemoteCall.removeTags [u.note_id] (pyJoin " " u.remove_tags)]
           else []) ++
          (if optTruthy u.deck = true ∧ u.deck.getD "" ≠ deck_name then
            (if cards ≠ [] then
              [RemoteCall.changeDeck cards (u.deck.getD "")] else [])
           else [])
        logs :=
          if (optTruthy u.deck = true ∧ u.deck.getD "" ≠ deck_name) ∧
              cards = [] then
            [LogEntry.warn index "no_cards_for_deck_change"] else []
        ops :=
          if payload ≠ [] ∨ u.add_tags ≠ [] ∨ u.remove_tags ≠ [] ∨
              ((optTruthy u.deck = true ∧ u.deck.getD "" ≠ deck_name) ∧
                cards ≠ []) then true else false
        addedTags :=
          if u.add_tags ≠ [] then some u.add_tags else Option.none
        removedTags :=
          if u.remove_tags ≠ [] then some u.remove_tags else Option.none
        deckChangedTo :=
          if (optTruthy u.deck = true ∧ u.deck.getD "" ≠ deck_name) ∧
              cards ≠ [] then some (u.deck.getD "") else Option.none},
       Option.none) := by
  by_cases h1 : payload ≠ [] <;>
  by_cases h2 : u.add_tags ≠ [] <;>
  by_cases h3 : u.remove_tags ≠ [] <;>
  by_cases h4 : optTruthy u.deck = true ∧ u.deck.getD "" ≠ deck_name <;>
  by_cases h5 : cards ≠ [] <;>
    simp [updMutationPhase, updStepFields, updStepAddTags,
      updStepRemoveTags, updStepDeck, h, h1, h2, h3, h4, h5]
  all_goals rw [if_pos (not_ne_iff.mp h5)]

theorem updFieldsPhase_terminal (index : Nat) (update : NoteUpdateL)
    (mf : List String) (cm : List (String × String))
    (raw : List (String × String)) (hraw : update.fields = some raw)
    (hne : raw ≠ [])
    (hunk : (normalize_fields_for_model raw mf).2.2 ≠ []) :
    updFieldsPhase index update mf cm =
      .terminalError (normalize_fields_for_model raw mf).2.2 := by
  unfold updFieldsPhase
  rw [hraw]
  simp only [Option.getD_some]
  rw [if_pos hne, if_pos hunk]

theorem updFieldsPhase_noop (index : Nat) (update : NoteUpdateL)
    (mf : List String) (cm : List (String × String))
    (raw : List (String × String)) (hraw : update.fields = some raw)
    (hne : raw ≠ [])
    (hunk : (normalize_fields_for_model raw mf).2.2 = [])
    (hmat : (normalize_fields_for_model raw mf).2.1 = 0) :
    updFieldsPhase index update mf cm =
      .proceed [] [] [.warn index "no_matching_fields"] := by
  unfold updFieldsPhase
  rw [hraw]
  simp only [Option.getD_some]
  rw [if_pos hne, if_neg (by simp [hunk]), if_pos hmat]

theorem updFieldsPhase_hit (index : Nat) (update : NoteUpdateL)
    (mf : List String) (cm : List (String × String))
    (raw : List (String × String)) (hraw : update.fields = some raw)
    (hne : raw ≠ [])
    (hunk : (normalize_fields_for_model raw mf).2.2 = [])
    (hmat : (normalize_fields_for_model raw mf).2.1 ≠ 0) :
    updFieldsPhase index update mf cm =
      .proceed
        (raw.foldl (updPayloadStep cm
          (normalize_fields_for_model raw mf).1) ([], [])).1
        (raw.foldl (updPayloadStep cm
          (normalize_fields_for_model raw mf).1) ([], [])).2 [] := by
  unfold updFieldsPhase
  rw [hraw]
  simp only [Option.getD_some]
  rw [if_pos hne, if_neg (by simp [hunk]), if_neg hmat]

theorem nffm_matched_zero_unknown (raw : List (String × String))
    (mf : List String) (hne : raw ≠ [])
    (hmat : (normalize_fields_for_model raw mf).2.1 = 0) :
    (normalize_fields_for_model raw mf).2.2 ≠ [] := by
  rw [normalize_fields_for_model_eq] at hmat ⊢
  simp only [] at hmat ⊢
  have hsnd : (mf.foldl (nffmStep raw) ([], [])).2 = [] :=
    List.length_eq_zero.mp hmat
  rw [hsnd]
  have hfil : (raw.map Prod.fst).filter
      (fun k => decide (¬ k ∈ ([] : List String))) = raw.map Prod.fst := by
    apply List.filter_eq_self.mpr
    intro a _
    simp
  rw [hfil]
  intro hcontra
  cases hr : raw.map Prod.fst with
  | nil => exact hne (by simpa using hr)
  | cons x xs =>
      have hx : x ∈ pySort (raw.map Prod.fst) :=
        (mem_pySort (raw.map Prod.fst) x).mpr
          (by rw [hr]; exact List.mem_cons_self x xs)
      rw [hcontra] at hx
      simp at hx

theorem processNoteUpdate_terminal (ctx : Ctx) (index : Nat)
    (update : NoteUpdateL) (info : NoteInfoL)
    (mfCache : List (String × List String))
    (cfCache : List (String × List (String × String))) (ctr : Nat)
    (mf : List String) (cm : List (String × String))
    (mfc2 : List (String × List String))
    (cfc2 : List (String × List (String × String)))
    (unknown : List String)
    (hsc : (updEffectiveSchema ctx info
        (if optTruthy info.model_name then info.model_name.getD "" else "")
        mfCache cfCache).2 = .ok (mf, cm, mfc2, cfc2))
    (hfp : updFieldsPhase index update mf cm = .terminalError unknown) :
    processNoteUpdate ctx index update (some info) mfCache cfCache ctr =
      ((updEffectiveSchema ctx info
          (if optTruthy info.model_name then info.model_name.getD "" else "")
          mfCache cfCache).1,
       .ok ({index := index
             noteId := update.note_id
             status := "error"
             model := some (if optTruthy info.model_name then
               info.model_name.getD "" else "")
             deck := some (if optTruthy info.deck_name then
               info.deck_name.getD "" else "")
             error := some (.unknownFields unknown)}, false,
        mfc2, cfc2, ctr)) := by
  unfold processNoteUpdate
  simp only []
  rw [hsc]
  simp only []
  rw [hfp]

theorem processNoteUpdate_proceed (ctx : Ctx) (index : Nat)
    (update : NoteUpdateL) (info : NoteInfoL)
    (mfCache : List (String × List String))
    (cfCache : List (String × List (String × String))) (ctr : Nat)
    (mf : List String) (cm : List (String × String))
    (mfc2 : List (String × List String))
    (cfc2 : List (String × List (String × String)))
    (p : List (String × String)) (u : List String) (lg : List LogEntry)
    (hsc : (updEffectiveSchema ctx info
        (if optTruthy info.model_name then info.model_name.getD "" else "")
        mfCache cfCache).2 = .ok (mf, cm, mfc2, cfc2))
    (hfp : updFieldsPhase index update mf cm = .proceed p u lg) :
    processNoteUpdate ctx index update (some info) mfCache cfCache ctr =
      ((updEffectiveSchema ctx info
          (if optTruthy info.model_name then info.model_name.getD "" else "")
          mfCache cfCache).1 ++
        (updProceed ctx index update info
          (if optTruthy info.model_name then info.model_name.getD "" else "")
          (if optTruthy info.deck_name then info.deck_name.getD "" else "")
          cm p u lg ctr).1,
       .ok ((updProceed ctx index update info
          (if optTruthy info.model_name then info.model_name.getD "" else "")
          (if optTruthy info.deck_name then info.deck_name.getD "" else "")
          cm p u lg ctr).2.1,
        (updProceed ctx index update info
          (if optTruthy info.model_name then info.model_name.getD "" else "")
          (if optTruthy info.deck_name then info.deck_name.getD "" else "")
          cm p u lg ctr).2.2.1, mfc2, cfc2,
        (updProceed ctx index update info
          (if optTruthy info.model_name then info.model_name.getD "" else "")
          (if optTruthy info.deck_name then info.deck_name.getD "" else "")
          cm p u lg ctr).2.2.2)) := by
  unfold processNoteUpdate
  simp only []
  rw [hsc]
  simp only []
  rw [hfp]

/-- C4: in `update_notes`, a non-empty field patch with at least one key
matching no field of the note's effective schema makes that note's outcome
status `"error"` carrying the unknown field names, and no note-mutating
call (`updateNoteFields`, `addTags`, `removeTags`, `changeDeck`) is issued
for that note (first conjunct).  The claim's second scenario — zero matched
fields but no unknown keys — marks the note `"noop"` with the
`no_matching_fields` warning and proceeds (second conjunct); its guard is
however unsatisfiable: with a non-empty patch, zero matched fields forces
every patch key into `unknown_fields` (third conjunct), so the `"noop"`
branch of lines 681-686 is unreachable and the second conjunct holds
vacuously. -/
theorem C4_unknown_patch_key_terminal_error (ctx : Ctx) (index : Nat)
    (update : NoteUpdateL) (info : NoteInfoL)
    (mfCache : List (String × List String))
    (cfCache : List (String × List (String × String))) (ctr : Nat)
    (mf : List String) (cm : List (String × String))
    (mfc2 : List (String × List String))
    (cfc2 : List (String × List (String × String)))
    (raw : List (String × String))
    (hraw : update.fields = some raw) (hne : raw ≠ [])
    (hsc : (updEffectiveSchema ctx info
        (if optTruthy info.model_name then info.model_name.getD "" else "")
        mfCache cfCache).2 = .ok (mf, cm, mfc2, cfc2)) :
    ((normalize_fields_for_model raw mf).2.2 ≠ [] →
      (processNoteUpdate ctx index update (some info) mfCache cfCache
          ctr).2 =
        .ok ({index := index
              noteId := update.note_id
              status := "error"
              model := some (if optTruthy info.model_name then
                info.model_name.getD "" else "")
              deck := some (if optTruthy info.deck_name then
                info.deck_name.getD "" else "")
              error := some (.unknownFields
                (normalize_fields_for_model raw mf).2.2)}, false,
         mfc2, cfc2, ctr) ∧
      ∀ c ∈ (processNoteUpdate ctx index update (some info) mfCache
          cfCache ctr).1, isMutationCall c = false) ∧
    ((normalize_fields_for_model raw mf).2.2 = [] →
      (normalize_fields_for_model raw mf).2.1 = 0 →
      ∃ d b mfc3 cfc3 ctr3,
        (processNoteUpdate ctx index update (some info) mfCache cfCache
            ctr).2 = .ok (d, b, mfc3, cfc3, ctr3) ∧
        d.status = "noop" ∧
        LogEntry.warn index "no_matching_fields" ∈ d.logs) ∧
    ((normalize_fields_for_model raw mf).2.1 = 0 →
      (normalize_fields_for_model raw mf).2.2 ≠ []) := by
  have hvac : (normalize_fields_for_model raw mf).2.1 = 0 →
      (normalize_fields_for_model raw mf).2.2 ≠ [] :=
    fun hmat => nffm_matched_zero_unknown raw mf hne hmat
  refine ⟨?_, ?_, hvac⟩
  · intro hunk
    have hred := processNoteUpdate_terminal ctx index update info mfCache
      cfCache ctr mf cm mfc2 cfc2 _ hsc
      (updFieldsPhase_terminal index update mf cm raw hraw hne hunk)
    constructor
    · rw [hred]
    · intro c hc
      rw [hred] at hc
      exact isMutationCall_false_of_fetch c
        (updEffectiveSchema_fetch ctx info _ mfCache cfCache c hc)
  · intro hunk hmat
    exact absurd hunk (hvac hmat)

/-- Oracle instance for the C4 witness. -/
def c4Ctx : Ctx where
  modelFields := fun _ => .ok ["Front", "Back"]
  createDeck := fun _ => Option.none
  store := fun _ _ => Option.none
  fetch := fun _ _ => .error "network unavailable"
  mutate := fun _ => Option.none
  addNotesResp := fun _ => .ok []
  notesInfoResp := fun _ => .ok []
  sha1hex := fun _ => "cafe"
  freshName := fun _ => "generated"
  autoLink := fun s => s

/-- Fetched note info for the C4 witness. -/
def c4Info : NoteInfoL where
  note_id := 7
  model_name := some "Basic"
  deck_name := some "Default"
  fields := [("Front", "Q"), ("Back", "A")]
  cards := [99]

/-- The update of the C4 witness: one patch key matching no field. -/
def c4Upd : NoteUpdateL where
  note_id := 7
  fields := some [("Bogus", "x")]

/-- Closed-instance witness for `C4_unknown_patch_key_terminal_error`: the
`Bogus` patch yields the terminal unknown-fields error with no mutation
call, and the matched-zero guard of the noop branch indeed forces a
non-empty unknown list. -/
theorem C4_unknown_patch_key_terminal_error_witness :
    ((processNoteUpdate c4Ctx 0 c4Upd (some c4Info) [] [] 0).2 =
      .ok ({index := 0
            noteId := 7
            status := "error"
            model := some "Basic"
            deck := some "Default"
            error := some (.unknownFields ["Bogus"])}, false,
       [("Basic", ["Front", "Back"])],
       [("Basic", [("front", "Front"), ("back", "Back")])], 0) ∧
     ∀ c ∈ (processNoteUpdate c4Ctx 0 c4Upd (some c4Info) [] [] 0).1,
       isMutationCall c = false) ∧
    (normalize_fields_for_model [("Bogus", "x")]
      ["Front", "Back"]).2.2 ≠ [] := by
  have h := C4_unknown_patch_key_terminal_error c4Ctx 0 c4Upd c4Info [] []
    0 ["Front", "Back"] [("front", "Front"), ("back", "Back")]
    [("Basic", ["Front", "Back"])]
    [("Basic", [("front", "Front"), ("back", "Back")])]
    [("Bogus", "x")] rfl (by decide) (by rfl)
  refine ⟨⟨?_, (h.1 (by decide)).2⟩, h.2.2 (by decide)⟩
  exact (h.1 (by decide)).1

theorem updProceed_no_images_mutateNone (ctx : Ctx) (index : Nat)
    (update : NoteUpdateL) (info : NoteInfoL) (mn dn : String)
    (cm : List (String × String)) (p : List (String × String))
    (u : List String) (lg : List LogEntry) (ctr : Nat)
    (himg : update.images = []) (hmut : ∀ c, ctx.mutate c = Option.none) :
    (updProceed ctx index update info mn dn cm p u lg ctr).1 =
      (process_data_urls_in_fields ctx index p).2.2 ++
        (updMutationPhase ctx index update dn info.cards
          (process_data_urls_in_fields ctx index p).1).1.calls ∧
    (updProceed ctx index update info mn dn cm p u lg ctr).2.1.status =
      (if (updMutationPhase ctx index update dn info.cards
          (process_data_urls_in_fields ctx index p).1).1.ops then "ok"
       else "noop") ∧
    (updProceed ctx index update info mn dn cm p u lg ctr).2.2.1 =
      (updMutationPhase ctx index update dn info.cards
        (process_data_urls_in_fields ctx index p).1).1.ops := by
  have hil : updImagesLoop ctx index cm info.fields update.images
      (process_data_urls_in_fields ctx index p).1 ctr =
      ([], [], (process_data_urls_in_fields ctx index p).1, [], ctr) := by
    rw [himg]
    rfl
  obtain ⟨M, hM2⟩ : ∃ M, updMutationPhase ctx index update dn info.cards
      (process_data_urls_in_fields ctx index p).1 = (M, Option.none) := by
    rw [updMutationPhase_mutateNone ctx index update dn info.cards _ hmut]
    exact ⟨_, rfl⟩
  unfold updProceed
  simp only []
  rw [hil]
  simp only []
  rw [hM2]
  simp

theorem updProceed_applied_ok (ctx : Ctx) (index : Nat)
    (update : NoteUpdateL) (info : NoteInfoL) (mn dn : String)
    (cm : List (String × String)) (p : List (String × String))
    (u : List String) (lg : List LogEntry) (ctr : Nat)
    (himg : update.images = []) (hmut : ∀ c, ctx.mutate c = Option.none)
    (hp : (process_data_urls_in_fields ctx index p).1 ≠ []) :
    (∀ c ∈ (updProceed ctx index update info mn dn cm p u lg ctr).1,
      isModelFetch c = false) ∧
    RemoteCall.updateNoteFields update.note_id
        (process_data_urls_in_fields ctx index p).1 ∈
      (updProceed ctx index update info mn dn cm p u lg ctr).1 ∧
    (updProceed ctx index update info mn dn cm p u lg ctr).2.1.status =
      "ok" ∧
    (updProceed ctx index update info mn dn cm p u lg ctr).2.2.1 =
      true := by
  have hUP := updProceed_no_images_mutateNone ctx index update info mn dn
    cm p u lg ctr himg hmut
  have hops : (updMutationPhase ctx index update dn info.cards
      (process_data_urls_in_fields ctx index p).1).1.ops = true := by
    rw [updMutationPhase_mutateNone ctx index update dn info.cards _ hmut]
    simp only []
    rw [if_pos (Or.inl hp)]
  refine ⟨?_, ?_, ?_, ?_⟩
  · intro c hc
    rw [hUP.1] at hc
    rcases List.mem_append.mp hc with hc1 | hc2
    · exact isModelFetch_false_of_store c
        (process_data_urls_store ctx index p c hc1)
    · exact isModelFetch_false_of_mutation c
        (updMutationPhase_calls ctx index update dn info.cards _ c hc2)
  · rw [hUP.1]
    apply List.mem_append_right
    rw [updMutationPhase_mutateNone ctx index update dn info.cards _ hmut]
    simp only []
    rw [if_pos hp]
    simp
  · rw [hUP.2.1, hops]
    simp
  · rw [hUP.2.2]
    exact hops

/-- C6: when a fetched note has an empty `modelName` and the update carries
a field patch, `update_notes` falls back to the note's own field keys as
the effective schema — no `modelFieldNames` fetch is issued and the call
does not fail — and a patch whose keys case-insensitively match those
field names is applied normally: a non-empty `updateNoteFields` payload is
submitted and the note finishes `"ok"` and counted as updated. -/
theorem C6_empty_model_uses_own_fields (ctx : Ctx) (index : Nat)
    (update : NoteUpdateL) (info : NoteInfoL)
    (mfCache : List (String × List String))
    (cfCache : List (String × List (String × String))) (ctr : Nat)
    (raw : List (String × String))
    (hmodel : optTruthy info.model_name = false)
    (hfld : info.fields ≠ [])
    (hraw : update.fields = some raw) (hne : raw ≠ [])
    (hunk : (normalize_fields_for_model raw
      (info.fields.map Prod.fst)).2.2 = [])
    (hmat : (normalize_fields_for_model raw
      (info.fields.map Prod.fst)).2.1 ≠ 0)
    (himg : update.images = [])
    (hmut : ∀ c, ctx.mutate c = Option.none) :
    (∃ cfc2, updEffectiveSchema ctx info
        (if optTruthy info.model_name then info.model_name.getD "" else "")
        mfCache cfCache =
      ([], .ok (info.fields.map Prod.fst,
        lowerKeyMap (info.fields.map Prod.fst), mfCache, cfc2))) ∧
    (∀ c ∈ (processNoteUpdate ctx index update (some info) mfCache cfCache
        ctr).1, isModelFetch c = false) ∧
    (∃ payload, payload ≠ [] ∧
      RemoteCall.updateNoteFields update.note_id payload ∈
        (processNoteUpdate ctx index update (some info) mfCache cfCache
          ctr).1) ∧
    ∃ d mfc3 cfc3 ctr3,
      (processNoteUpdate ctx index update (some info) mfCache cfCache
        ctr).2 = .ok (d, true, mfc3, cfc3, ctr3) ∧ d.status = "ok" := by
  have hMN : (if optTruthy info.model_name then info.model_name.getD ""
      else "") = "" := by simp [hmodel]
  obtain ⟨cfc2, hscEq0⟩ :=
    updEffectiveSchema_empty_model ctx info mfCache cfCache hfld
  have hscEq : updEffectiveSchema ctx info
      (if optTruthy info.model_name then info.model_name.getD "" else "")
      mfCache cfCache =
      ([], .ok (info.fields.map Prod.fst,
        lowerKeyMap (info.fields.map Prod.fst), mfCache, cfc2)) := by
    rw [hMN]
    exact hscEq0
  have hsc : (updEffectiveSchema ctx info
      (if optTruthy info.model_name then info.model_name.getD "" else "")
      mfCache cfCache).2 = .ok (info.fields.map Prod.fst,
        lowerKeyMap (info.fields.map Prod.fst), mfCache, cfc2) := by
    rw [hscEq]
  have hsc1 : (updEffectiveSchema ctx info
      (if optTruthy info.model_name then info.model_name.getD "" else "")
      mfCache cfCache).1 = [] := by
    rw [hscEq]
  have hfp := updFieldsPhase_hit index update (info.fields.map Prod.fst)
    (lowerKeyMap (info.fields.map Prod.fst)) raw hraw hne hunk hmat
  set F := raw.foldl (updPayloadStep
    (lowerKeyMap (info.fields.map Prod.fst))
    (normalize_fields_for_model raw (info.fields.map Prod.fst)).1)
    (([], []) : List (String × String) × List String) with hF
  have hP := processNoteUpdate_proceed ctx index update info mfCache
    cfCache ctr (info.fields.map Prod.fst)
    (lowerKeyMap (info.fields.map Prod.fst)) mfCache cfc2 F.1 F.2 []
    hsc hfp
  have hfinF : F.1 ≠ [] := by
    rw [hF]
    apply updPayloadFold_ne_nil
    left
    have hfm : (info.fields.map Prod.fst).filterMap
        (chosenKey (raw.map Prod.fst)) ≠ [] := by
      intro h0
      apply hmat
      rw [normalize_fields_for_model_eq]
      simp only []
      have hsnd := nffm_fold_snd raw (info.fields.map Prod.fst) ([], [])
      simp only [List.nil_append] at hsnd
      rw [hsnd, h0]
      rfl
    obtain ⟨f, hfmem, k, hck⟩ : ∃ f ∈ info.fields.map Prod.fst, ∃ k,
        chosenKey (raw.map Prod.fst) f = some k := by
      by_contra hno
      push_neg at hno
      apply hfm
      apply List.filterMap_eq_nil_iff.mpr
      intro f hf
      cases hc : chosenKey (raw.map Prod.fst) f with
      | none => rfl
      | some k => exact absurd hc (hno f hf k)
    have hk := hck
    unfold chosenKey at hk
    rcases hlast : ((raw.map Prod.fst).filter
        (fun x => lowerStr x = lowerStr f)).getLast? with _ | k0
    · rw [hlast] at hk
      simp at hk
    · rw [hlast] at hk
      simp only [] at hk
      by_cases hk0 : k0 = ""
      · rw [if_pos hk0] at hk
        simp at hk
      · rw [if_neg hk0] at hk
        have hkmem := mem_of_getLast?_eq_some hlast
        have hkraw : k0 ∈ raw.map Prod.fst ∧ lowerStr k0 = lowerStr f := by
          have hm := List.mem_filter.mp hkmem
          exact ⟨hm.1, by simpa using hm.2⟩
        obtain ⟨kv, hkvmem, hkv1⟩ : ∃ kv ∈ raw, kv.1 = k0 := by
          rcases List.mem_map.mp hkraw.1 with ⟨kv, hkvmem, hkv1⟩
          exact ⟨kv, hkvmem, hkv1⟩
        refine ⟨kv, hkvmem, ?_⟩
        rw [hkv1]
        rw [lookup_lowerKeyMap]
        have hffil : f ∈ (info.fields.map Prod.fst).filter
            (fun x => lowerStr x = lowerStr k0) := by
          apply List.mem_filter.mpr
          exact ⟨hfmem, by simp [hkraw.2]⟩
        rcases hgl : ((info.fields.map Prod.fst).filter
            (fun x => lowerStr x = lowerStr k0)).getLast? with _ | c
        · rw [List.getLast?_eq_none_iff] at hgl
          rw [hgl] at hffil
          simp at hffil
        · refine ⟨c, rfl, ?_⟩
          have hcmem := mem_of_getLast?_eq_some hgl
          have hcl : lowerStr c = lowerStr k0 := by
            have hm := List.mem_filter.mp hcmem
            simpa using hm.2
          intro hc0
          subst hc0
          have hkl : lowerStr k0 = "" := by
            rw [← hcl]
            rfl
          exact hk0 (lowerStr_eq_empty hkl)
  have hpd : (process_data_urls_in_fields ctx index F.1).1 ≠ [] :=
    process_data_urls_fst_ne_nil ctx index _ hfinF
  have hHelp := updProceed_applied_ok ctx index update info
    (if optTruthy info.model_name then info.model_name.getD "" else "")
    (if optTruthy info.deck_name then info.deck_name.getD "" else "")
    (lowerKeyMap (info.fields.map Prod.fst)) F.1 F.2 [] ctr himg hmut hpd
  refine ⟨⟨cfc2, hscEq⟩, ?_, ?_, ?_⟩
  · intro c hc
    rw [hP, hsc1] at hc
    simp only [List.nil_append] at hc
    exact hHelp.1 c hc
  · refine ⟨(process_data_urls_in_fields ctx index F.1).1, hpd, ?_⟩
    rw [hP, hsc1]
    simp only [List.nil_append]
    exact hHelp.2.1
  · refine ⟨(updProceed ctx index update info
      (if optTruthy info.model_name then info.model_name.getD "" else "")
      (if optTruthy info.deck_name then info.deck_name.getD "" else "")
      (lowerKeyMap (info.fields.map Prod.fst)) F.1 F.2 [] ctr).2.1,
      mfCache, cfc2,
      (updProceed ctx index update info
      (if optTruthy info.model_name then info.model_name.getD "" else "")
      (if optTruthy info.deck_name then info.deck_name.getD "" else "")
      (lowerKeyMap (info.fields.map Prod.fst)) F.1 F.2 [] ctr).2.2.2,
      ?_, hHelp.2.2.1⟩
    rw [hP, hHelp.2.2.2]

/-- Oracle instance for the C6 witness. -/
def c6Ctx : Ctx where
  modelFields := fun _ => .error "should not be fetched"
  createDeck := fun _ => Option.none
  store := fun _ _ => Option.none
  fetch := fun _ _ => .error "network unavailable"
  mutate := fun _ => Option.none
  addNotesResp := fun _ => .ok []
  notesInfoResp := fun _ => .ok []
  sha1hex := fun _ => "cafe"
  freshName := fun _ => "generated"
  autoLink := fun s => s

/-- Fetched note info with an empty `modelName` for the C6 witness. -/
def c6Info : NoteInfoL where
  note_id := 5
  model_name := Option.none
  deck_name := some "Deck"
  fields := [("Front", "Q"), ("Back", "A")]
  cards := [11]

/-- The update of the C6 witness: a case-variant patch of `Front`. -/
def c6Upd : NoteUpdateL where
  note_id := 5
  fields := some [("front", "NEW")]

/-- Closed-instance witness for `C6_empty_model_uses_own_fields`. -/
theorem C6_empty_model_uses_own_fields_witness :
    (∃ cfc2, updEffectiveSchema c6Ctx c6Info
        (if optTruthy c6Info.model_name then c6Info.model_name.getD ""
         else "") [] [] =
      ([], .ok (c6Info.fields.map Prod.fst,
        lowerKeyMap (c6Info.fields.map Prod.fst), [], cfc2))) ∧
    (∀ c ∈ (processNoteUpdate c6Ctx 0 c6Upd (some c6Info) [] [] 0).1,
      isModelFetch c = false) ∧
    (∃ payload, payload ≠ [] ∧
      RemoteCall.updateNoteFields c6Upd.note_id payload ∈
        (processNoteUpdate c6Ctx 0 c6Upd (some c6Info) [] [] 0).1) ∧
    ∃ d mfc3 cfc3 ctr3,
      (processNoteUpdate c6Ctx 0 c6Upd (some c6Info) [] [] 0).2 =
        .ok (d, true, mfc3, cfc3, ctr3) ∧ d.status = "ok" :=
  C6_empty_model_uses_own_fields c6Ctx 0 c6Upd c6Info [] [] 0
    [("front", "NEW")] rfl (by decide) rfl (by decide) (by decide)
    (by decide) rfl (fun c => rfl)

end AnkiMcp
